import Mathlib

/-!
# golang-websocket-poc: connection registry, shared check-in record, read loop

A shallow embedding of `src/main.go`.

* Go `string` / `[]byte` values are lists of bytes (`Bytes`, natural numbers below 256).
* Go maps are association lists with at most one entry per key (`GoMap`); a `range`
  over a map visits the entries in an unspecified order, so statements about
  snapshots with more than one entry are phrased through membership and counts.
* The process globals `clients`, `checkIns`, `checkInId` are the fields of `Globals`.
* The calls into libraries (`upgrader.Upgrade`, `uuid.New`, `ws.ReadMessage`,
  `ws.SetReadDeadline`, `ws.WriteMessage`) are answered by the environment; their
  results are the data of `Conn` and `Recv`.  `strings.TrimSpace` and
  `json.Unmarshal` are pure and are modelled by `trimSpace` and `jsonUnmarshal`.
* Logging has no effect on the state and is left out.
-/

namespace WebsocketPoc

/-! ## Byte strings -/

/-- Go `string` and `[]byte`: a sequence of bytes. -/
abbrev Bytes := List Nat

/-- The bytes of an ASCII literal. -/
def ascii (s : String) : Bytes := s.toList.map Char.toNat

/-! ## `strings.TrimSpace` -/

/-- ASCII white space: tab, line feed, vertical tab, form feed, carriage return, space. -/
def asciiSpace (c : Nat) : Bool :=
  c == 9 || c == 10 || c == 11 || c == 12 || c == 13 || c == 32

/-- Third byte of the UTF-8 encodings `E2 80 xx` of the white-space runes
U+2000..U+200A, U+2028, U+2029 and U+202F. -/
def spaceE280 (b : Nat) : Bool :=
  (0x80 ≤ b && b ≤ 0x8A) || b == 0xA8 || b == 0xA9 || b == 0xAF

/-- Drops the leading runes for which `unicode.IsSpace` holds: the ASCII white space
and the UTF-8 encodings of U+0085, U+00A0, U+1680, U+2000..U+200A, U+2028, U+2029,
U+202F, U+205F and U+3000. -/
def trimLeft : Bytes → Bytes
  | [] => []
  | c :: r =>
    if asciiSpace c then trimLeft r
    else
      match c, r with
      | 0xC2, b :: r2 => if b == 0x85 || b == 0xA0 then trimLeft r2 else c :: r
      | 0xE1, 0x9A :: 0x80 :: r3 => trimLeft r3
      | 0xE2, 0x80 :: b :: r3 => if spaceE280 b then trimLeft r3 else c :: r
      | 0xE2, 0x81 :: 0x9F :: r3 => trimLeft r3
      | 0xE3, 0x80 :: 0x80 :: r3 => trimLeft r3
      | _, _ => c :: r

/-- Left trim of the reversed string: drops the reversed encodings of the
white-space runes, which is how the trailing runes are recognised from the end. -/
def trimLeftRev : Bytes → Bytes
  | [] => []
  | c :: r =>
    if asciiSpace c then trimLeftRev r
    else
      match c, r with
      | 0x85, 0xC2 :: r2 => trimLeftRev r2
      | 0xA0, 0xC2 :: r2 => trimLeftRev r2
      | 0x80, 0x9A :: 0xE1 :: r3 => trimLeftRev r3
      | 0x9F, 0x81 :: 0xE2 :: r3 => trimLeftRev r3
      | 0x80, 0x80 :: 0xE3 :: r3 => trimLeftRev r3
      | b, 0x80 :: 0xE2 :: r3 => if spaceE280 b then trimLeftRev r3 else c :: r
      | _, _ => c :: r

/-- Drops the trailing white-space runes. -/
def trimRight (s : Bytes) : Bytes := (trimLeftRev s.reverse).reverse

/-- Go `strings.TrimSpace`: the string without leading and trailing white space. -/
def trimSpace (s : Bytes) : Bytes := trimRight (trimLeft s)

/-! ## `encoding/json`: `json.Unmarshal` into a `CheckIn` -/

/-- Check-in record and state-update message, `type CheckIn struct` (the struct tags
name the JSON members `id` and `status`). -/
structure CheckIn where
  Id : Bytes
  Status : Bytes
  deriving DecidableEq, Repr

/-- Parsed JSON text.  The value of a number is not kept: no field of `CheckIn`
accepts one. -/
inductive Json where
  | null
  | bool (b : Bool)
  | num
  | str (s : Bytes)
  | arr (xs : List Json)
  | obj (members : List (Bytes × Json))

/-- JSON insignificant white space: space, tab, carriage return, line feed. -/
def isSpace (c : Nat) : Bool := c == 0x20 || c == 0x09 || c == 0x0D || c == 0x0A

/-- Skips JSON white space. -/
def skipSpace : Bytes → Bytes
  | [] => []
  | c :: r => if isSpace c then skipSpace r else c :: r

/-- ASCII decimal digit. -/
def isDigit (c : Nat) : Bool := 0x30 ≤ c && c ≤ 0x39

/-- Skips decimal digits. -/
def skipDigits : Bytes → Bytes
  | [] => []
  | c :: r => if isDigit c then skipDigits r else c :: r

/-- Value of a hexadecimal digit. -/
def hexVal (c : Nat) : Option Nat :=
  if 0x30 ≤ c && c ≤ 0x39 then some (c - 0x30)
  else if 0x61 ≤ c && c ≤ 0x66 then some (c - 0x61 + 10)
  else if 0x41 ≤ c && c ≤ 0x46 then some (c - 0x41 + 10)
  else none

/-- The rune written by the four hexadecimal digits of a `\u` escape. -/
def getu4 (a b c d : Nat) : Option Nat :=
  match hexVal a, hexVal b, hexVal c, hexVal d with
  | some x, some y, some z, some w => some (x * 4096 + y * 256 + z * 16 + w)
  | _, _, _, _ => none

/-- Scans a string literal after its opening quote: the bytes up to the closing
quote, still escaped, and the input after the quote.  Control characters and
escapes other than `\" \\ \/ \b \f \n \r \t \uXXXX` are syntax errors. -/
def scanString : Bytes → Option (Bytes × Bytes)
  | [] => none
  | c :: r =>
    if c == 0x22 then some ([], r)
    else if c == 0x5C then
      match r with
      | [] => none
      | e :: r2 =>
        if e == 0x75 then
          match r2 with
          | h1 :: h2 :: h3 :: h4 :: r6 =>
            match getu4 h1 h2 h3 h4 with
            | none => none
            | some _ => (scanString r6).map fun p => (c :: e :: h1 :: h2 :: h3 :: h4 :: p.1, p.2)
          | _ => none
        else if e == 0x22 || e == 0x5C || e == 0x2F || e == 0x62 || e == 0x66
            || e == 0x6E || e == 0x72 || e == 0x74 then
          (scanString r2).map fun p => (c :: e :: p.1, p.2)
        else none
    else if c < 0x20 then none
    else (scanString r).map fun p => (c :: p.1, p.2)

/-- UTF-8 encoding of a rune (`utf8.EncodeRune`); surrogates and values above
U+10FFFF are written as U+FFFD. -/
def encodeRune (r : Nat) : Bytes :=
  if r < 0x80 then [r]
  else if r < 0x800 then [0xC0 + r / 64, 0x80 + r % 64]
  else if (0xD800 ≤ r && r < 0xE000) || 0x10FFFF < r then [0xEF, 0xBF, 0xBD]
  else if r < 0x10000 then [0xE0 + r / 4096, 0x80 + r / 64 % 64, 0x80 + r % 64]
  else [0xF0 + r / 262144, 0x80 + r / 4096 % 64, 0x80 + r / 64 % 64, 0x80 + r % 64]

/-- UTF-8 continuation byte. -/
def isCont (b : Nat) : Bool := 0x80 ≤ b && b ≤ 0xBF

/-- Number of continuation bytes of the well-formed UTF-8 sequence that starts the
input with a lead byte of `0x80` or more, `none` when `utf8.DecodeRune` reports an
encoding error there (a rune error of width 1). -/
def runeTail : Bytes → Option Nat
  | b0 :: b1 :: rest =>
    if 0xC2 ≤ b0 && b0 ≤ 0xDF then (if isCont b1 then some 1 else none)
    else if 0xE0 ≤ b0 && b0 ≤ 0xEF then
      let lo := if b0 == 0xE0 then 0xA0 else 0x80
      let hi := if b0 == 0xED then 0x9F else 0xBF
      match rest with
      | b2 :: _ => if lo ≤ b1 && b1 ≤ hi && isCont b2 then some 2 else none
      | [] => none
    else if 0xF0 ≤ b0 && b0 ≤ 0xF4 then
      let lo := if b0 == 0xF0 then 0x90 else 0x80
      let hi := if b0 == 0xF4 then 0x8F else 0xBF
      match rest with
      | b2 :: b3 :: _ => if lo ≤ b1 && b1 ≤ hi && isCont b2 && isCont b3 then some 3 else none
      | _ => none
    else none
  | _ => none

/-- Unquotes the scanned bytes of a string literal (`unquoteBytes`): escapes are
replaced by the bytes they stand for, a `\u` surrogate pair by the rune it encodes,
an unpaired surrogate by U+FFFD, a well-formed UTF-8 sequence is copied and every
other byte of `0x80` or more is replaced by U+FFFD.  Each step consumes a byte, so
the length of the input is enough fuel (`unquoteAux_enough_fuel`). -/
def unquoteAux : Nat → Bytes → Bytes
  | 0, _ => []
  | _ + 1, [] => []
  | fuel + 1, c :: r =>
    if c == 0x5C then
      match r with
      | [] => []
      | e :: r2 =>
        if e == 0x75 then
          match r2 with
          | h1 :: h2 :: h3 :: h4 :: r6 =>
            let rr := (getu4 h1 h2 h3 h4).getD 0xFFFD
            if 0xD800 ≤ rr && rr < 0xE000 then
              match r6 with
              | b :: u :: g1 :: g2 :: g3 :: g4 :: r12 =>
                let rr1 := if b == 0x5C && u == 0x75 then (getu4 g1 g2 g3 g4).getD 0 else 0
                if rr < 0xDC00 && 0xDC00 ≤ rr1 && rr1 < 0xE000 then
                  encodeRune ((rr - 0xD800) * 1024 + (rr1 - 0xDC00) + 0x10000)
                    ++ unquoteAux fuel r12
                else [0xEF, 0xBF, 0xBD] ++ unquoteAux fuel r6
              | _ => [0xEF, 0xBF, 0xBD] ++ unquoteAux fuel r6
            else encodeRune rr ++ unquoteAux fuel r6
          | _ => []
        else
          let b := if e == 0x62 then 0x08 else if e == 0x66 then 0x0C else if e == 0x6E then 0x0A
            else if e == 0x72 then 0x0D else if e == 0x74 then 0x09 else e
          b :: unquoteAux fuel r2
    else if c < 0x80 then c :: unquoteAux fuel r
    else
      match runeTail (c :: r) with
      | some n => c :: r.take n ++ unquoteAux fuel (r.drop n)
      | none => [0xEF, 0xBF, 0xBD] ++ unquoteAux fuel r

/-- Go `unquoteBytes` on the scanned bytes of a string literal. -/
def unquote (raw : Bytes) : Bytes := unquoteAux raw.length raw

/-- Optional fraction of a number: a point followed by at least one digit. -/
def scanFraction : Bytes → Option Bytes
  | 0x2E :: d :: r => if isDigit d then some (skipDigits r) else none
  | 0x2E :: [] => none
  | s => some s

/-- Optional exponent of a number: `e` or `E`, an optional sign, at least one digit. -/
def scanExponent : Bytes → Option Bytes
  | [] => some []
  | e :: r =>
    if e == 0x65 || e == 0x45 then
      match r with
      | sg :: d :: r2 =>
        if sg == 0x2B || sg == 0x2D then (if isDigit d then some (skipDigits r2) else none)
        else if isDigit sg then some (skipDigits (d :: r2))
        else none
      | [d] => if isDigit d then some [] else none
      | [] => none
    else some (e :: r)

/-- Scans a number after an optional minus sign: `0` or a digit sequence without
leading zero, an optional fraction, an optional exponent.  Returns the rest. -/
def scanNumber : Bytes → Option Bytes
  | [] => none
  | c :: r =>
    if !isDigit c then none
    else
      match scanFraction (if c == 0x30 then r else skipDigits r) with
      | none => none
      | some s => scanExponent s

/-- Removes a literal prefix. -/
def stripPrefix : Bytes → Bytes → Option Bytes
  | [], s => some s
  | _ :: _, [] => none
  | p :: ps, c :: r => if p == c then stripPrefix ps r else none

/-- Deepest nesting of arrays and objects the scanner accepts. -/
def maxNestingDepth : Nat := 10000

mutual
/-- Parses one JSON value at the start of the input (after white space), inside
`depth` open arrays and objects; returns the value and the rest of the input. -/
def parseValue : Nat → Nat → Bytes → Option (Json × Bytes)
  | 0, _, _ => none
  | fuel + 1, depth, s =>
    match skipSpace s with
    | [] => none
    | c :: r =>
      if c == 0x7B then
        if maxNestingDepth < depth + 1 then none
        else
          match skipSpace r with
          | 0x7D :: r2 => some (.obj [], r2)
          | _ => (parseMembers fuel (depth + 1) r).map fun p => (.obj p.1, p.2)
      else if c == 0x5B then
        if maxNestingDepth < depth + 1 then none
        else
          match skipSpace r with
          | 0x5D :: r2 => some (.arr [], r2)
          | _ => (parseElements fuel (depth + 1) r).map fun p => (.arr p.1, p.2)
      else if c == 0x22 then (scanString r).map fun p => (.str (unquote p.1), p.2)
      else if c == 0x2D then (scanNumber r).map fun rest => (.num, rest)
      else if isDigit c then (scanNumber (c :: r)).map fun rest => (.num, rest)
      else if c == 0x74 then (stripPrefix [0x72, 0x75, 0x65] r).map fun rest => (.bool true, rest)
      else if c == 0x66 then
        (stripPrefix [0x61, 0x6C, 0x73, 0x65] r).map fun rest => (.bool false, rest)
      else if c == 0x6E then (stripPrefix [0x75, 0x6C, 0x6C] r).map fun rest => (.null, rest)
      else none
/-- Parses the members of a non-empty object up to and including the closing brace. -/
def parseMembers : Nat → Nat → Bytes → Option (List (Bytes × Json) × Bytes)
  | 0, _, _ => none
  | fuel + 1, depth, s =>
    match skipSpace s with
    | 0x22 :: r =>
      match scanString r with
      | none => none
      | some (rawKey, r2) =>
        match skipSpace r2 with
        | 0x3A :: r3 =>
          match parseValue fuel depth r3 with
          | none => none
          | some (v, r4) =>
            match skipSpace r4 with
            | 0x2C :: r5 =>
              (parseMembers fuel depth r5).map fun p => ((unquote rawKey, v) :: p.1, p.2)
            | 0x7D :: r5 => some ([(unquote rawKey, v)], r5)
            | _ => none
        | _ => none
    | _ => none
/-- Parses the elements of a non-empty array up to and including the closing bracket. -/
def parseElements : Nat → Nat → Bytes → Option (List Json × Bytes)
  | 0, _, _ => none
  | fuel + 1, depth, s =>
    match parseValue fuel depth s with
    | none => none
    | some (v, r) =>
      match skipSpace r with
      | 0x2C :: r2 => (parseElements fuel depth r2).map fun p => (v :: p.1, p.2)
      | 0x5D :: r2 => some ([v], r2)
      | _ => none
end

/-- Parses a complete JSON text: one value surrounded by optional white space
(`checkValid`).  Every call of the parser consumes a byte before the next one or
is followed by one that does, so twice the length of the input is enough fuel
(`parseJson_enough_fuel`). -/
def parseJson (data : Bytes) : Option Json :=
  match parseValue (2 * data.length + 2) 0 data with
  | some (v, rest) => if skipSpace rest == [] then some v else none
  | none => none

/-- Case folding of an object key for the match with a field name (`foldName`):
ASCII letters are upper-cased, and the two other runes with an ASCII letter in their
fold orbit, U+017F and U+212A, become `S` and `K`. -/
def foldName : Bytes → Bytes
  | [] => []
  | 0xC5 :: 0xBF :: r => 0x53 :: foldName r
  | 0xE2 :: 0x84 :: 0xAA :: r => 0x4B :: foldName r
  | c :: r => (if 0x61 ≤ c && c ≤ 0x7A then c - 0x20 else c) :: foldName r

/-- Stores a JSON value into a Go `string` field (`literalStore`): a string sets it,
`null` leaves it alone, anything else is an `UnmarshalTypeError`. -/
def storeString (cur : Bytes) : Json → Option Bytes
  | .str s => some s
  | .null => some cur
  | _ => none

/-- Decodes the members of an object into the message, in order; a later member
overrides an earlier one for the same field and unknown keys are skipped.
`none`: some member raised an `UnmarshalTypeError`, which `Unmarshal` returns. -/
def decodeMembers : List (Bytes × Json) → CheckIn → Option CheckIn
  | [], m => some m
  | (key, v) :: rest, m =>
    if foldName key == ascii "ID" then
      match storeString m.Id v with
      | some s => decodeMembers rest { m with Id := s }
      | none => none
    else if foldName key == ascii "STATUS" then
      match storeString m.Status v with
      | some s => decodeMembers rest { m with Status := s }
      | none => none
    else decodeMembers rest m

/-- Go `json.Unmarshal(msg, &message)` with `var message CheckIn` freshly zeroed:
`none` when it returns an error (a syntax error, or a JSON value of the wrong type),
otherwise the decoded message.  The text `null` decodes to the zero message. -/
def jsonUnmarshal (msg : Bytes) : Option CheckIn :=
  match parseJson msg with
  | none => none
  | some .null => some ⟨[], []⟩
  | some (.obj members) => decodeMembers members ⟨[], []⟩
  | some _ => none

/-! ## Go maps -/

/-- Go `map[κ]ν`: association list with at most one entry per key. -/
abbrev GoMap (κ : Type) (ν : Type) := List (κ × ν)

namespace GoMap

variable {κ ν : Type} [DecidableEq κ]

/-- Keys of the map. -/
def keys (m : GoMap κ ν) : List κ := m.map Prod.fst

/-- Values of the map, as a `range` loop that appends each value collects them. -/
def values (m : GoMap κ ν) : List ν := m.map Prod.snd

/-- Entry stored under `k`, if any (`v, ok := m[k]`). -/
def get (m : GoMap κ ν) (k : κ) : Option ν :=
  match m with
  | [] => none
  | (k1, v1) :: rest => if k1 = k then some v1 else get rest k

/-- Assignment `m[k] = v`: replaces the entry of `k` or adds one. -/
def set (m : GoMap κ ν) (k : κ) (v : ν) : GoMap κ ν :=
  match m with
  | [] => [(k, v)]
  | (k1, v1) :: rest => if k1 = k then (k, v) :: rest else (k1, v1) :: set rest k v

/-- Builtin `delete(m, k)`: removes the entry of `k`; nothing happens when absent. -/
def delete (m : GoMap κ ν) (k : κ) : GoMap κ ν :=
  match m with
  | [] => []
  | (k1, v1) :: rest => if k1 = k then delete rest k else (k1, v1) :: delete rest k

end GoMap

/-! ## Globals of the process -/

/-- Identity of a `*websocket.Conn`. -/
abbrev Handle := Nat

/-- Registry entry, `type Client struct`. -/
structure Client where
  Id : Bytes
  Status : Bytes
  deriving DecidableEq, Repr

/-- The package-level variables: the registry `clients`, the check-in table
`checkIns` and the id `checkInId` drawn once when the process starts. -/
structure Globals where
  clients : GoMap Handle Client
  checkIns : GoMap Bytes CheckIn
  checkInId : Bytes
  deriving DecidableEq, Repr

/-- State after the package variables are initialised and `main` has stored the
check-in record with empty status (lines 36-56); `checkInId` is the value of
`uuid.New().String()`. -/
def main (checkInId : Bytes) : Globals :=
  { clients := [],
    checkIns := GoMap.set [] checkInId { Id := checkInId, Status := [] },
    checkInId := checkInId }

/-- Go `updateStatus`: stores a record with the process id and the status of the
message under the key `checkInId`. -/
def updateStatus (g : Globals) (message : CheckIn) : Globals :=
  { g with checkIns := g.checkIns.set g.checkInId { Id := g.checkInId, Status := message.Status } }

/-- Go `getCheckIn`: the list written as the JSON body of the 200 response. -/
def getCheckIn (g : Globals) : List CheckIn := g.checkIns.values

/-- Go `getClients`: the list written as the JSON body of the 200 response. -/
def getClients (g : Globals) : List Client := g.clients.values

/-- Lines 76-81 of `handleWebSocket`: the connection is added to the registry
under its handle, with a fresh id and status `connected`. -/
def register (g : Globals) (ws : Handle) (id : Bytes) : Globals :=
  { g with clients := g.clients.set ws { Id := id, Status := ascii "connected" } }

/-- The deferred function of `handleWebSocket` (lines 85-91): the entry of the
handle is deleted from the registry. -/
def unregister (g : Globals) (ws : Handle) : Globals :=
  { g with clients := g.clients.delete ws }

/-! ## The read loop -/

/-- Go `websocket.TextMessage`. -/
def TextMessage : Nat := 1

/-- Go `websocket.BinaryMessage`. -/
def BinaryMessage : Nat := 2

/-- What the connection answers during one iteration of the read loop. -/
inductive Recv where
  /-- `ws.ReadMessage` returns an error: time-out, close frame, broken connection. -/
  | readErr (unexpectedClose : Bool)
  /-- A message is read, then `ws.SetReadDeadline` returns an error. -/
  | deadlineErr (messageType : Nat) (msg : Bytes)
  /-- A message is read and the deadline is reset; `writeErr` is the outcome of
  `ws.WriteMessage` in case the iteration calls it. -/
  | frame (messageType : Nat) (msg : Bytes) (writeErr : Bool)
  deriving DecidableEq, Repr

/-- How an iteration of the loop ends: with the next iteration, or by `return`. -/
inductive Control where
  | next
  | exit
  deriving DecidableEq, Repr

/-- The test of line 121: a text frame whose trimmed payload is `ping`. -/
def isPing (messageType : Nat) (msg : Bytes) : Bool :=
  messageType == TextMessage && trimSpace msg == ascii "ping"

/-- Outcome of one iteration: the globals, the payloads passed to
`ws.WriteMessage` (always as text messages), and how the iteration ends. -/
structure Step where
  globals : Globals
  writes : List Bytes
  control : Control
  deriving DecidableEq, Repr

/-- One iteration of the `for` loop of the goroutine (lines 105-136). -/
def loopBody (g : Globals) : Recv → Step
  | .readErr _ => { globals := g, writes := [], control := .exit }
  | .deadlineErr _ _ => { globals := g, writes := [], control := .exit }
  | .frame messageType msg writeErr =>
    if isPing messageType msg then
      if writeErr then { globals := g, writes := [ascii "pong"], control := .exit }
      else { globals := g, writes := [ascii "pong"], control := .next }
    else
      match jsonUnmarshal msg with
      | none => { globals := g, writes := [], control := .next }
      | some message => { globals := updateStatus g message, writes := [], control := .next }

/-- The `for` loop of the goroutine on the answers of the connection, in order.
It ends with `exit` when an iteration returns; `next` means that all the answers
are consumed and the goroutine waits in `ws.ReadMessage`. -/
def readLoop (g : Globals) : List Recv → Step
  | [] => { globals := g, writes := [], control := .next }
  | ev :: rest =>
    let s := loopBody g ev
    match s.control with
    | .exit => s
    | .next =>
      let t := readLoop s.globals rest
      { globals := t.globals, writes := s.writes ++ t.writes, control := t.control }

/-- What the environment answers to one call of `handleWebSocket`. -/
structure Conn where
  /-- Result of `upgrader.Upgrade`: the new connection, or `none` for an error. -/
  upgrade : Option Handle
  /-- Value of `uuid.New().String()` at line 78. -/
  id : Bytes
  /-- Whether the first `ws.SetReadDeadline` (line 97) returns an error. -/
  deadlineErr : Bool
  /-- Answers of the connection to the iterations of the read loop. -/
  inbound : List Recv
  deriving DecidableEq, Repr

/-- Result of a call of `handleWebSocket` that has returned. -/
structure Returned where
  globals : Globals
  writes : List Bytes
  /-- Whether the returned `error` is non-nil. -/
  err : Bool
  deriving DecidableEq, Repr

/-- Go `handleWebSocket`, run on its own against the globals `g`.  `none`: the
handler has not returned, it waits on `done` while the goroutine waits for the
next message. -/
def handleWebSocket (g : Globals) (c : Conn) : Option Returned :=
  match c.upgrade with
  | none => some { globals := g, writes := [], err := true }
  | some ws =>
    let g1 := register g ws c.id
    if c.deadlineErr then some { globals := unregister g1 ws, writes := [], err := true }
    else
      let s := readLoop g1 c.inbound
      match s.control with
      | .exit => some { globals := unregister s.globals ws, writes := s.writes, err := false }
      | .next => none

/-- Whether an iteration on this answer returns from the loop: a read error, a
failure to reset the deadline, or a ping whose `pong` cannot be written. -/
def Recv.fatal : Recv → Bool
  | .readErr _ => true
  | .deadlineErr _ _ => true
  | .frame messageType msg writeErr => isPing messageType msg && writeErr

/-! ## Several sessions

The sessions run concurrently and meet only in the globals, each access to which
is made under a mutex.  A run of the process is the sequence in which these
accesses are serialised. -/

/-- One serialised action of some session. -/
inductive Event where
  /-- The upgrade succeeds with connection `ws`, which is registered under the id
  `id`; then the first deadline is set.  If that fails the handler returns, else
  the goroutine of the read loop starts. -/
  | upgraded (ws : Handle) (id : Bytes) (deadlineErr : Bool)
  /-- One iteration of the read loop of `ws`. -/
  | iteration (ws : Handle) (ev : Recv)
  /-- The deferred clean-up of the handler of `ws`, which has returned. -/
  | cleanup (ws : Handle)
  deriving DecidableEq, Repr

/-- The process: its globals, the connections whose read loop is running, and
the calls of `ws.WriteMessage` made so far. -/
structure World where
  globals : Globals
  running : List Handle
  sent : List (Handle × Bytes)
  deriving DecidableEq, Repr

/-- The process when `main` starts the server. -/
def World.init (checkInId : Bytes) : World :=
  { globals := main checkInId, running := [], sent := [] }

/-- Effect of one action.  An iteration needs a running loop, and the clean-up of
a handler waits for its loop to end; an action that cannot happen changes nothing. -/
def World.step (w : World) : Event → World
  | .upgraded ws id deadlineErr =>
    { w with
      globals := register w.globals ws id,
      running := if deadlineErr then w.running else ws :: w.running }
  | .iteration ws ev =>
    if ws ∈ w.running then
      let s := loopBody w.globals ev
      { globals := s.globals,
        running := if s.control = .exit then w.running.filter (fun h => h != ws) else w.running,
        sent := w.sent ++ s.writes.map (fun b => (ws, b)) }
    else w
  | .cleanup ws =>
    if ws ∈ w.running then w else { w with globals := unregister w.globals ws }

/-- The process after a sequence of actions. -/
def World.run (w : World) (evs : List Event) : World := evs.foldl World.step w

/-! ## Calls on the registry -/

/-- A call on the connection registry. -/
inductive Call where
  | register (ws : Handle) (id : Bytes)
  | unregister (ws : Handle)
  deriving DecidableEq, Repr

/-- Effect of a call on the registry. -/
def Call.apply (g : Globals) : Call → Globals
  | .register ws id => WebsocketPoc.register g ws id
  | .unregister ws => WebsocketPoc.unregister g ws

/-- The globals after a sequence of calls, in the order the lock serialises them. -/
def applyCalls (g : Globals) (calls : List Call) : Globals := calls.foldl Call.apply g

/-- Whether the call unregisters `ws`. -/
def Call.unregisters (ws : Handle) : Call → Bool
  | .register _ _ => false
  | .unregister h => h == ws

/-- The handle has an unmatched register call: some call registers it and no
later call unregisters it. -/
def unmatchedRegister : List Call → Handle → Bool
  | [], _ => false
  | .register h _ :: rest, ws =>
    (h == ws && !rest.any (Call.unregisters ws)) || unmatchedRegister rest ws
  | .unregister _ :: rest, ws => unmatchedRegister rest ws

/-! ## Wording of the interface description -/

/-- A JSON object with a string `id` and a string `status`, the state-update
message of the interface description. -/
def isStateUpdateObject (msg : Bytes) : Bool :=
  match parseJson msg with
  | some (.obj members) =>
    members.any (fun kv => kv.1 == ascii "id" && (match kv.2 with | .str _ => true | _ => false))
      && members.any
        (fun kv => kv.1 == ascii "status" && (match kv.2 with | .str _ => true | _ => false))
  | _ => false

/-- The member name is `id`, letter case ignored. -/
def namesId (key : Bytes) : Bool := foldName key == ascii "ID"

/-- The member name is `status`, letter case ignored. -/
def namesStatus (key : Bytes) : Bool := foldName key == ascii "STATUS"

/-- The JSON value is a string or `null`. -/
def isStringOrNull : Json → Bool
  | .str _ => true
  | .null => true
  | _ => false

/-- Every member named `id` or `status` is a string or `null`. -/
def acceptedMembers (members : List (Bytes × Json)) : Bool :=
  members.all fun kv => !(namesId kv.1 || namesStatus kv.1) || isStringOrNull kv.2

/-- Shape of the payloads that are state updates: the JSON text `null`, or a JSON
object in which every member named `id` or `status` is a string or `null`. -/
def isAcceptedUpdate (msg : Bytes) : Bool :=
  match parseJson msg with
  | some .null => true
  | some (.obj members) => acceptedMembers members
  | _ => false

/-- The string of the last member named `status` that is a string, if there is one. -/
def lastStatus : List (Bytes × Json) → Option Bytes
  | [] => none
  | (key, v) :: rest =>
    match lastStatus rest with
    | some s => some s
    | none =>
      if namesStatus key then
        match v with
        | .str s => some s
        | _ => none
      else none

/-- Status that a state-update payload carries: the string of its last `status`
member that is a string, and the empty string when it has none. -/
def acceptedStatus (msg : Bytes) : Bytes :=
  match parseJson msg with
  | some (.obj members) => (lastStatus members).getD []
  | _ => []

/-- Status carried by a frame that is not a ping and is parsed successfully; `none`
for every other frame.  A frame is a message type and a payload. -/
def frameUpdate (frame : Nat × Bytes) : Option Bytes :=
  if isPing frame.1 frame.2 then none else (jsonUnmarshal frame.2).map (fun m => m.Status)

/-- Status of the last frame of the sequence that is not a ping and is parsed
successfully, if there is one. -/
def lastUpdate : List (Nat × Bytes) → Option Bytes
  | [] => none
  | frame :: rest =>
    match lastUpdate rest with
    | some s => some s
    | none => frameUpdate frame

/-- The check-in table holds one record, stored under `checkInId` and carrying
that id. -/
def Globals.SingleRecord (g : Globals) : Prop :=
  ∃ status, g.checkIns = [(g.checkInId, { Id := g.checkInId, Status := status })]

/-- The globals of the process after a run from its start. -/
def reached (checkInId : Bytes) (evs : List Event) : Globals :=
  ((World.init checkInId).run evs).globals

/-! ## Lemmas on maps -/

namespace GoMap

variable {κ ν : Type} [DecidableEq κ]

theorem delete_eq_filter (m : GoMap κ ν) (k : κ) :
    m.delete k = m.filter (fun e => decide (e.1 ≠ k)) := by
  induction m with
  | nil => rfl
  | cons e rest ih =>
    obtain ⟨k1, v1⟩ := e
    by_cases h : k1 = k <;> simp [delete, h, ih]

theorem get_delete_self (m : GoMap κ ν) (k : κ) : (m.delete k).get k = none := by
  induction m with
  | nil => rfl
  | cons e rest ih =>
    obtain ⟨k1, v1⟩ := e
    by_cases h : k1 = k <;> simp [delete, get, h, ih]

theorem get_delete_of_ne (m : GoMap κ ν) {k k2 : κ} (h : k2 ≠ k) :
    (m.delete k).get k2 = m.get k2 := by
  induction m with
  | nil => rfl
  | cons e rest ih =>
    obtain ⟨k1, v1⟩ := e
    by_cases h1 : k1 = k
    · subst h1
      have h2 : ¬ k1 = k2 := fun h3 => h h3.symm
      simp [delete, get, h2, ih]
    · by_cases h2 : k1 = k2
      · subst h2
        simp [delete, get, h1]
      · simp [delete, get, h1, h2, ih]

theorem delete_of_get_none (m : GoMap κ ν) (k : κ) (h : m.get k = none) : m.delete k = m := by
  induction m with
  | nil => rfl
  | cons e rest ih =>
    obtain ⟨k1, v1⟩ := e
    by_cases h1 : k1 = k
    · simp [get, h1] at h
    · simp [get, h1] at h
      simp [delete, h1, ih h]

theorem get_set_self (m : GoMap κ ν) (k : κ) (v : ν) : (m.set k v).get k = some v := by
  induction m with
  | nil => simp [set, get]
  | cons e rest ih =>
    obtain ⟨k1, v1⟩ := e
    by_cases h : k1 = k <;> simp [set, get, h, ih]

theorem get_set_of_ne (m : GoMap κ ν) {k k2 : κ} (v : ν) (h : k2 ≠ k) :
    (m.set k v).get k2 = m.get k2 := by
  induction m with
  | nil => simp [set, get, Ne.symm h]
  | cons e rest ih =>
    obtain ⟨k1, v1⟩ := e
    by_cases h1 : k1 = k
    · subst h1
      have h2 : ¬ k1 = k2 := fun h3 => h h3.symm
      simp [set, get, h2, Ne.symm h]
    · by_cases h2 : k1 = k2
      · subst h2
        simp [set, get, h1]
      · simp [set, get, h1, h2, ih]

theorem mem_keys_iff (m : GoMap κ ν) (k : κ) : k ∈ m.keys ↔ (m.get k).isSome = true := by
  induction m with
  | nil => simp [keys, get]
  | cons e rest ih =>
    obtain ⟨k1, v1⟩ := e
    by_cases h : k1 = k
    · simp [keys, get, h]
    · have ih2 : k ∈ List.map Prod.fst rest ↔ (get rest k).isSome = true := ih
      simp [keys, get, h, Ne.symm h, ih2]

theorem keys_set (m : GoMap κ ν) (k : κ) (v : ν) :
    (m.set k v).keys = if k ∈ m.keys then m.keys else m.keys ++ [k] := by
  induction m with
  | nil => simp [set, keys]
  | cons e rest ih =>
    obtain ⟨k1, v1⟩ := e
    by_cases h : k1 = k
    · simp [set, keys, h]
    · have ih2 : List.map Prod.fst (set rest k v)
          = if k ∈ List.map Prod.fst rest then List.map Prod.fst rest
            else List.map Prod.fst rest ++ [k] := ih
      simp only [set, keys, h, if_false, List.map_cons, List.mem_cons, Ne.symm h, false_or]
      rw [ih2]
      split <;> simp

theorem nodup_keys_set (m : GoMap κ ν) (k : κ) (v : ν) (h : m.keys.Nodup) :
    (m.set k v).keys.Nodup := by
  rw [keys_set]
  split
  · exact h
  · rename_i hk
    exact List.nodup_append.mpr ⟨h, List.nodup_singleton k, by
      intro a ha hb
      simp at hb
      exact hk (hb ▸ ha)⟩

theorem nodup_keys_delete (m : GoMap κ ν) (k : κ) (h : m.keys.Nodup) :
    (m.delete k).keys.Nodup := by
  rw [delete_eq_filter]
  exact (List.Nodup.sublist ((List.filter_sublist m).map Prod.fst) h)

theorem delete_set_self (m : GoMap κ ν) (k : κ) (v : ν) : (m.set k v).delete k = m.delete k := by
  induction m with
  | nil => simp [set, delete]
  | cons e rest ih =>
    obtain ⟨k1, v1⟩ := e
    by_cases h : k1 = k <;> simp [set, delete, h, ih]

theorem mem_of_mem_set (m : GoMap κ ν) (k : κ) (v : ν) (e : κ × ν) (h : e ∈ m.set k v) :
    e = (k, v) ∨ e ∈ m := by
  induction m with
  | nil => simpa [set] using h
  | cons e1 rest ih =>
    obtain ⟨k1, v1⟩ := e1
    by_cases h1 : k1 = k
    · simp [set, h1] at h
      rcases h with h | h
      · exact Or.inl h
      · exact Or.inr (List.mem_cons_of_mem _ h)
    · simp only [set, h1, if_false, List.mem_cons] at h
      rcases h with h | h
      · exact Or.inr (h ▸ List.mem_cons_self _ _)
      · rcases ih h with h2 | h2
        · exact Or.inl h2
        · exact Or.inr (List.mem_cons_of_mem _ h2)

theorem mem_of_mem_delete (m : GoMap κ ν) (k : κ) (e : κ × ν) (h : e ∈ m.delete k) : e ∈ m := by
  rw [delete_eq_filter] at h
  exact List.mem_of_mem_filter h

theorem values_eq_get (m : GoMap κ ν) (h : m.keys.Nodup) :
    m.values.map some = m.keys.map m.get := by
  induction m with
  | nil => rfl
  | cons e rest ih =>
    obtain ⟨k1, v1⟩ := e
    have hn : k1 ∉ keys rest ∧ (keys rest).Nodup := by
      simpa [keys] using h
    have ih2 : List.map some (values rest) = List.map (get rest) (keys rest) := ih hn.2
    have h3 : List.map (get ((k1, v1) :: rest)) (keys rest) = List.map (get rest) (keys rest) := by
      apply List.map_congr_left
      intro a ha
      have : ¬ k1 = a := fun h4 => hn.1 (h4 ▸ ha)
      simp [get, this]
    show some v1 :: List.map some (values rest)
      = get ((k1, v1) :: rest) k1 :: List.map (get ((k1, v1) :: rest)) (keys rest)
    rw [h3, ih2]
    simp [get]

end GoMap

/-! ## Fuel of the parser -/

theorem skipSpace_length (s : Bytes) : (skipSpace s).length ≤ s.length := by
  induction s with
  | nil => simp [skipSpace]
  | cons c r ih =>
    unfold skipSpace
    split
    · exact Nat.le_succ_of_le ih
    · exact Nat.le_refl _

theorem skipDigits_length (s : Bytes) : (skipDigits s).length ≤ s.length := by
  induction s with
  | nil => simp [skipDigits]
  | cons c r ih =>
    unfold skipDigits
    split
    · exact Nat.le_succ_of_le ih
    · exact Nat.le_refl _

theorem stripPrefix_length (p s r : Bytes) (h : stripPrefix p s = some r) :
    r.length + p.length = s.length := by
  induction p generalizing s with
  | nil =>
    simp [stripPrefix] at h
    simp [h]
  | cons a ps ih =>
    cases s with
    | nil => simp [stripPrefix] at h
    | cons c t =>
      simp only [stripPrefix] at h
      split at h
      · have := ih t h
        simp only [List.length_cons]
        omega
      · simp at h

theorem scanString_length (s raw r : Bytes) (h : scanString s = some (raw, r)) :
    r.length < s.length := by
  induction s using scanString.induct generalizing raw r with
  | case1 => simp [scanString] at h
  | case2 c r0 hc =>
    rw [scanString.eq_def] at h
    simp [hc] at h
    obtain ⟨-, rfl⟩ := h
    simp
  | case3 c h1 h2 => simp [scanString, h1, h2] at h
  | case4 c h1 h2 e he a b c2 d r6 hg => simp [scanString, h1, h2, he, hg] at h
  | case5 c h1 h2 e he a b c2 d r6 v hg ih =>
    simp [scanString, h1, h2, he, hg] at h
    obtain ⟨p, hp, -⟩ := h
    have := ih p r hp
    simp only [List.length_cons]
    omega
  | case6 c h1 h2 e r2 he hno =>
    rw [scanString.eq_def] at h
    simp [h1, h2, he] at h
  | case7 c h1 h2 e r2 he hesc ih =>
    rw [scanString.eq_def] at h
    simp [h1, h2, he, hesc] at h
    obtain ⟨p, hp, -⟩ := h
    have := ih p r hp
    simp only [List.length_cons]
    omega
  | case8 c h1 h2 e r2 he hesc =>
    rw [scanString.eq_def] at h
    simp [h1, h2, he, hesc] at h
  | case9 c r0 h1 h2 hlt =>
    rw [scanString.eq_def] at h
    simp [h1, h2, hlt] at h
  | case10 c r0 h1 h2 hlt ih =>
    rw [scanString.eq_def] at h
    simp [h1, h2, hlt] at h
    obtain ⟨p, hp, -⟩ := h
    have := ih p r hp
    simp only [List.length_cons]
    omega

theorem scanFraction_length (s r : Bytes) (h : scanFraction s = some r) :
    r.length ≤ s.length := by
  unfold scanFraction at h
  split at h
  · rename_i d t
    split at h
    · have := skipDigits_length t
      simp only [Option.some.injEq] at h
      subst h
      simp only [List.length_cons]
      omega
    · simp at h
  · simp at h
  · simp only [Option.some.injEq] at h
    subst h
    exact Nat.le_refl _

theorem scanExponent_length (s r : Bytes) (h : scanExponent s = some r) :
    r.length ≤ s.length := by
  unfold scanExponent at h
  split at h
  · simp only [Option.some.injEq] at h
    subst h
    exact Nat.le_refl _
  · rename_i e t
    split at h
    · split at h
      · rename_i sg d r2
        have h1 := skipDigits_length r2
        have h2 := skipDigits_length (d :: r2)
        simp only [List.length_cons] at h2 ⊢
        split at h
        · split at h
          · simp only [Option.some.injEq] at h
            subst h
            omega
          · simp at h
        · split at h
          · simp only [Option.some.injEq] at h
            subst h
            omega
          · simp at h
      · split at h
        · simp only [Option.some.injEq] at h
          subst h
          simp
        · simp at h
      · simp at h
    · simp only [Option.some.injEq] at h
      subst h
      exact Nat.le_refl _

theorem scanNumber_length (s r : Bytes) (h : scanNumber s = some r) : r.length < s.length := by
  cases s with
  | nil => simp [scanNumber] at h
  | cons c t =>
    simp only [scanNumber] at h
    split at h
    · simp at h
    · split at h
      · simp at h
      · rename_i s2 hfr
        have h1 := scanFraction_length _ _ hfr
        have h2 := scanExponent_length _ _ h
        have h3 := skipDigits_length t
        have h4 : (if (c == 48) = true then t else skipDigits t).length ≤ t.length := by
          split
          · exact Nat.le_refl _
          · exact h3
        simp only [List.length_cons]
        omega

theorem parse_length (fuel : Nat) :
    (∀ d s v r, parseValue fuel d s = some (v, r) → r.length < s.length)
      ∧ (∀ d s ms r, parseMembers fuel d s = some (ms, r) → r.length < s.length)
      ∧ (∀ d s vs r, parseElements fuel d s = some (vs, r) → r.length < s.length) := by
  induction fuel with
  | zero =>
    refine ⟨?_, ?_, ?_⟩ <;> intro d s v r h
    · simp [parseValue] at h
    · simp [parseMembers] at h
    · simp [parseElements] at h
  | succ fuel ih =>
    obtain ⟨ihV, ihM, ihE⟩ := ih
    refine ⟨?_, ?_, ?_⟩
    · intro d s v r h
      rw [parseValue] at h
      have hs := skipSpace_length s
      split at h
      · simp at h
      · rename_i c r0 heq
        rw [heq] at hs
        simp only [List.length_cons] at hs
        have hs0 := skipSpace_length r0
        split at h
        · split at h
          · simp at h
          · split at h
            · rename_i r2 heq2
              rw [heq2] at hs0
              simp only [List.length_cons] at hs0
              simp only [Option.some.injEq, Prod.mk.injEq] at h
              obtain ⟨-, rfl⟩ := h
              omega
            · simp only [Option.map_eq_some'] at h
              obtain ⟨p, hp, hv⟩ := h
              have := ihM _ _ _ _ (show parseMembers fuel (d + 1) r0 = some (p.1, p.2) from hp)
              simp only [Prod.mk.injEq] at hv
              obtain ⟨-, rfl⟩ := hv
              omega
        · split at h
          · split at h
            · simp at h
            · split at h
              · rename_i r2 heq2
                rw [heq2] at hs0
                simp only [List.length_cons] at hs0
                simp only [Option.some.injEq, Prod.mk.injEq] at h
                obtain ⟨-, rfl⟩ := h
                omega
              · simp only [Option.map_eq_some'] at h
                obtain ⟨p, hp, hv⟩ := h
                have := ihE _ _ _ _ (show parseElements fuel (d + 1) r0 = some (p.1, p.2) from hp)
                simp only [Prod.mk.injEq] at hv
                obtain ⟨-, rfl⟩ := hv
                omega
          · split at h
            · simp only [Option.map_eq_some'] at h
              obtain ⟨p, hp, hv⟩ := h
              have := scanString_length _ _ _ (show scanString r0 = some (p.1, p.2) from hp)
              simp only [Prod.mk.injEq] at hv
              obtain ⟨-, rfl⟩ := hv
              omega
            · split at h
              · simp only [Option.map_eq_some'] at h
                obtain ⟨p, hp, hv⟩ := h
                have := scanNumber_length _ _ hp
                simp only [Prod.mk.injEq] at hv
                obtain ⟨-, rfl⟩ := hv
                omega
              · split at h
                · simp only [Option.map_eq_some'] at h
                  obtain ⟨p, hp, hv⟩ := h
                  have := scanNumber_length _ _ hp
                  simp only [List.length_cons] at this
                  simp only [Prod.mk.injEq] at hv
                  obtain ⟨-, rfl⟩ := hv
                  omega
                · have hlit : ∀ (lit : Bytes) (j : Json),
                      Option.map (fun rest => (j, rest)) (stripPrefix lit r0) = some (v, r) →
                      r.length < s.length := by
                    intro lit j hl
                    simp only [Option.map_eq_some'] at hl
                    obtain ⟨p, hp, hv⟩ := hl
                    have := stripPrefix_length _ _ _ hp
                    simp only [Prod.mk.injEq] at hv
                    obtain ⟨-, rfl⟩ := hv
                    omega
                  split at h
                  · exact hlit _ _ h
                  · split at h
                    · exact hlit _ _ h
                    · split at h
                      · exact hlit _ _ h
                      · simp at h
    · intro d s ms r h
      rw [parseMembers] at h
      have hs := skipSpace_length s
      split at h
      · rename_i r1 heq
        rw [heq] at hs
        simp only [List.length_cons] at hs
        split at h
        · simp at h
        · rename_i rawKey r2 hscan
          have h2 := scanString_length _ _ _ hscan
          have hs2 := skipSpace_length r2
          split at h
          · rename_i r3 heq3
            rw [heq3] at hs2
            simp only [List.length_cons] at hs2
            split at h
            · simp at h
            · rename_i v r4 hval
              have h4 := ihV _ _ _ _ hval
              have hs4 := skipSpace_length r4
              split at h
              · rename_i r5 heq5
                rw [heq5] at hs4
                simp only [List.length_cons] at hs4
                simp only [Option.map_eq_some'] at h
                obtain ⟨p, hp, hv⟩ := h
                have := ihM _ _ _ _ (show parseMembers fuel d r5 = some (p.1, p.2) from hp)
                simp only [Prod.mk.injEq] at hv
                obtain ⟨-, rfl⟩ := hv
                omega
              · rename_i r5 heq5
                rw [heq5] at hs4
                simp only [List.length_cons] at hs4
                simp only [Option.some.injEq, Prod.mk.injEq] at h
                obtain ⟨-, rfl⟩ := h
                omega
              · simp at h
          · simp at h
      · simp at h
    · intro d s vs r h
      rw [parseElements] at h
      split at h
      · simp at h
      · rename_i v r1 hval
        have h1 := ihV _ _ _ _ hval
        have hs1 := skipSpace_length r1
        split at h
        · rename_i r2 heq2
          rw [heq2] at hs1
          simp only [List.length_cons] at hs1
          simp only [Option.map_eq_some'] at h
          obtain ⟨p, hp, hv⟩ := h
          have := ihE _ _ _ _ (show parseElements fuel d r2 = some (p.1, p.2) from hp)
          simp only [Prod.mk.injEq] at hv
          obtain ⟨-, rfl⟩ := hv
          omega
        · rename_i r2 heq2
          rw [heq2] at hs1
          simp only [List.length_cons] at hs1
          simp only [Option.some.injEq, Prod.mk.injEq] at h
          obtain ⟨-, rfl⟩ := h
          omega
        · simp at h

theorem parse_fuel (fuel : Nat) :
    (∀ d s, 2 * s.length + 1 ≤ fuel → parseValue (fuel + 1) d s = parseValue fuel d s)
      ∧ (∀ d s, 2 * s.length + 2 ≤ fuel → parseMembers (fuel + 1) d s = parseMembers fuel d s)
      ∧ (∀ d s, 2 * s.length + 2 ≤ fuel →
          parseElements (fuel + 1) d s = parseElements fuel d s) := by
  induction fuel with
  | zero =>
    refine ⟨?_, ?_, ?_⟩ <;> intro d s h <;> omega
  | succ fuel ih =>
    obtain ⟨ihV, ihM, ihE⟩ := ih
    refine ⟨?_, ?_, ?_⟩
    · intro d s hf
      rw [parseValue, parseValue]
      have hs := skipSpace_length s
      split
      · rfl
      · rename_i c r0 heq
        rw [heq] at hs
        simp only [List.length_cons] at hs
        rw [ihM (d + 1) r0 (by omega), ihE (d + 1) r0 (by omega)]
    · intro d s hf
      rw [parseMembers, parseMembers]
      have hs := skipSpace_length s
      split
      · rename_i r1 heq
        rw [heq] at hs
        simp only [List.length_cons] at hs
        split
        · rfl
        · rename_i rawKey r2 hscan
          have h2 := scanString_length _ _ _ hscan
          have hs2 := skipSpace_length r2
          split
          · rename_i r3 heq3
            rw [heq3] at hs2
            simp only [List.length_cons] at hs2
            rw [ihV d r3 (by omega)]
            split
            · rfl
            · rename_i v r4 hval
              have h4 := (parse_length fuel).1 _ _ _ _ hval
              have hs4 := skipSpace_length r4
              split
              · rename_i r5 heq5
                rw [heq5] at hs4
                simp only [List.length_cons] at hs4
                rw [ihM d r5 (by omega)]
              · rfl
              · rfl
          · rfl
      · rfl
    · intro d s hf
      rw [parseElements, parseElements]
      rw [ihV d s (by omega)]
      split
      · rfl
      · rename_i v r1 hval
        have h1 := (parse_length fuel).1 _ _ _ _ hval
        have hs1 := skipSpace_length r1
        split
        · rename_i r2 heq2
          rw [heq2] at hs1
          simp only [List.length_cons] at hs1
          rw [ihE d r2 (by omega)]
        · rfl
        · rfl

theorem parseValue_enough_fuel (extra d : Nat) (s : Bytes) :
    parseValue (2 * s.length + 2 + extra) d s = parseValue (2 * s.length + 2) d s := by
  induction extra with
  | zero => rfl
  | succ n ih =>
    rw [← ih]
    exact (parse_fuel (2 * s.length + 2 + n)).1 d s (by omega)

theorem unquoteAux_fuel (fuel : Nat) :
    ∀ s : Bytes, s.length ≤ fuel → unquoteAux (fuel + 1) s = unquoteAux fuel s := by
  induction fuel with
  | zero =>
    intro s hs
    cases s with
    | nil => simp [unquoteAux]
    | cons c r => simp at hs
  | succ fuel ih =>
    intro s hs
    cases s with
    | nil => simp [unquoteAux]
    | cons c r =>
      simp only [List.length_cons] at hs
      rw [unquoteAux.eq_def (fuel + 1 + 1) (c :: r), unquoteAux.eq_def (fuel + 1) (c :: r)]
      dsimp only
      rw [ih r (by omega)]
      split
      · split
        · rfl
        · rename_i e r2
          simp only [List.length_cons] at hs
          rw [ih r2 (by omega)]
          split
          · split
            · rename_i h1 h2 h3 h4 r6
              simp only [List.length_cons] at hs
              rw [ih r6 (by omega)]
              split
              · split
                · rename_i b u g1 g2 g3 g4 r12
                  simp only [List.length_cons] at hs
                  rw [ih r12 (by omega)]
                · rfl
              · rfl
            · rfl
          · rfl
      · split
        · rfl
        · split
          · rename_i n hn
            rw [ih (r.drop n) (by simp only [List.length_drop]; omega)]
          · rfl

theorem unquoteAux_enough_fuel (extra : Nat) (s : Bytes) :
    unquoteAux (s.length + extra) s = unquote s := by
  induction extra with
  | zero => rfl
  | succ n ih =>
    rw [← ih]
    exact unquoteAux_fuel (s.length + n) s (by omega)

/-- More fuel than `parseJson` gives the parser does not change the result: the
bound on the fuel rejects no JSON text. -/
theorem parseJson_enough_fuel (extra : Nat) (data : Bytes) :
    (match parseValue (2 * data.length + 2 + extra) 0 data with
      | some (v, rest) => if skipSpace rest == [] then some v else none
      | none => none) = parseJson data := by
  rw [parseValue_enough_fuel]
  rfl

/-! ## The check-in table along a run -/

theorem singleRecord_main (checkInId : Bytes) : (main checkInId).SingleRecord :=
  ⟨[], by simp [main, GoMap.set]⟩

theorem checkIns_updateStatus (g : Globals) (message : CheckIn) (h : g.SingleRecord) :
    (updateStatus g message).checkIns
      = [(g.checkInId, { Id := g.checkInId, Status := message.Status })] := by
  obtain ⟨status, hs⟩ := h
  simp [updateStatus, hs, GoMap.set]

theorem singleRecord_updateStatus (g : Globals) (message : CheckIn) (h : g.SingleRecord) :
    (updateStatus g message).SingleRecord :=
  ⟨message.Status, checkIns_updateStatus g message h⟩

theorem loopBody_frame (g : Globals) (messageType : Nat) (msg : Bytes) (writeErr : Bool) :
    loopBody g (.frame messageType msg writeErr)
      = if isPing messageType msg then
          { globals := g, writes := [ascii "pong"],
            control := if writeErr then .exit else .next }
        else
          { globals := (match jsonUnmarshal msg with
              | none => g
              | some message => updateStatus g message),
            writes := [], control := .next } := by
  by_cases hp : isPing messageType msg = true
  · cases writeErr <;> simp [loopBody, hp]
  · cases hj : jsonUnmarshal msg <;> simp [loopBody, hp, hj]

theorem loopBody_checkInId (g : Globals) (ev : Recv) :
    (loopBody g ev).globals.checkInId = g.checkInId := by
  cases ev with
  | readErr u => rfl
  | deadlineErr t m => rfl
  | frame t m e =>
    rw [loopBody_frame]
    split
    · rfl
    · cases jsonUnmarshal m <;> rfl

theorem loopBody_clients (g : Globals) (ev : Recv) :
    (loopBody g ev).globals.clients = g.clients := by
  cases ev with
  | readErr u => rfl
  | deadlineErr t m => rfl
  | frame t m e =>
    rw [loopBody_frame]
    split
    · rfl
    · cases jsonUnmarshal m <;> rfl

theorem singleRecord_loopBody (g : Globals) (ev : Recv) (h : g.SingleRecord) :
    (loopBody g ev).globals.SingleRecord := by
  cases ev with
  | readErr u => exact h
  | deadlineErr t m => exact h
  | frame t m e =>
    rw [loopBody_frame]
    split
    · exact h
    · cases jsonUnmarshal m with
      | none => exact h
      | some message => exact singleRecord_updateStatus g message h

theorem loopBody_control (g : Globals) (ev : Recv) :
    (loopBody g ev).control = if ev.fatal then .exit else .next := by
  cases ev with
  | readErr u => rfl
  | deadlineErr t m => rfl
  | frame t m e =>
    rw [loopBody_frame]
    by_cases hp : isPing t m = true <;> cases e <;> simp [hp, Recv.fatal]

theorem step_iteration (w : World) (ws : Handle) (ev : Recv) :
    w.step (.iteration ws ev)
      = if ws ∈ w.running then
          { globals := (loopBody w.globals ev).globals,
            running := if (loopBody w.globals ev).control = .exit
              then w.running.filter (fun h => h != ws) else w.running,
            sent := w.sent ++ (loopBody w.globals ev).writes.map (fun b => (ws, b)) }
        else w := rfl

theorem step_cleanup (w : World) (ws : Handle) :
    w.step (.cleanup ws)
      = if ws ∈ w.running then w else { w with globals := unregister w.globals ws } := rfl

theorem step_checkInId (w : World) (e : Event) :
    (w.step e).globals.checkInId = w.globals.checkInId := by
  cases e with
  | upgraded ws id d => rfl
  | iteration ws ev =>
    rw [step_iteration]
    split
    · exact loopBody_checkInId w.globals ev
    · rfl
  | cleanup ws =>
    rw [step_cleanup]
    split <;> rfl

theorem singleRecord_step (w : World) (e : Event) (h : w.globals.SingleRecord) :
    (w.step e).globals.SingleRecord := by
  cases e with
  | upgraded ws id d => exact h
  | iteration ws ev =>
    rw [step_iteration]
    split
    · exact singleRecord_loopBody w.globals ev h
    · exact h
  | cleanup ws =>
    rw [step_cleanup]
    split
    · exact h
    · exact h

theorem run_invariant (w : World) (evs : List Event) (h : w.globals.SingleRecord) :
    (w.run evs).globals.SingleRecord ∧ (w.run evs).globals.checkInId = w.globals.checkInId := by
  induction evs generalizing w with
  | nil => exact ⟨h, rfl⟩
  | cons e rest ih =>
    have h2 := ih (w.step e) (singleRecord_step w e h)
    exact ⟨h2.1, h2.2.trans (step_checkInId w e)⟩

theorem run_init_invariant (checkInId : Bytes) (evs : List Event) :
    ((World.init checkInId).run evs).globals.SingleRecord
      ∧ ((World.init checkInId).run evs).globals.checkInId = checkInId :=
  run_invariant (World.init checkInId) evs (singleRecord_main checkInId)

theorem reached_invariant (checkInId : Bytes) (evs : List Event) :
    (reached checkInId evs).SingleRecord ∧ (reached checkInId evs).checkInId = checkInId :=
  run_init_invariant checkInId evs

theorem getCheckIn_updateStatus (g : Globals) (message : CheckIn) (h : g.SingleRecord) :
    getCheckIn (updateStatus g message) = [{ Id := g.checkInId, Status := message.Status }] := by
  simp [getCheckIn, GoMap.values, checkIns_updateStatus g message h]

/-! ## State update -/

/-- C1: in every state reached from the initial one and for every parsed message `m`,
whatever its id, `getCheckIn` after `updateStatus(m)` returns exactly the one-element
list with the record of the process id `checkInId` and the status of `m`; this is what
the read loop does with a frame that is not a ping and that parses to `m`. -/
theorem getCheckIn_after_update (checkInId : Bytes) (evs : List Event) (m : CheckIn) :
    getCheckIn (updateStatus (reached checkInId evs) m)
        = [{ Id := checkInId, Status := m.Status }]
      ∧ ∀ (messageType : Nat) (msg : Bytes) (writeErr : Bool),
          isPing messageType msg = false → jsonUnmarshal msg = some m →
          getCheckIn (loopBody (reached checkInId evs) (.frame messageType msg writeErr)).globals
            = [{ Id := checkInId, Status := m.Status }] := by
  obtain ⟨hs, hid⟩ := reached_invariant checkInId evs
  have h1 := getCheckIn_updateStatus (reached checkInId evs) m hs
  rw [hid] at h1
  refine ⟨h1, ?_⟩
  intro messageType msg writeErr hp hj
  rw [loopBody_frame]
  simp [hp, hj, h1]

theorem getCheckIn_after_update_witness :
    getCheckIn (loopBody (reached (ascii "id0") [])
        (.frame TextMessage (ascii "\x7b\"id\":\"x\",\"status\":\"busy\"\x7d") false)).globals
      = [{ Id := ascii "id0", Status := ascii "busy" }] :=
  (getCheckIn_after_update (ascii "id0") [] { Id := ascii "x", Status := ascii "busy" }).2
    TextMessage (ascii "\x7b\"id\":\"x\",\"status\":\"busy\"\x7d") false (by decide) (by decide)

/-- C9: the check-in table always has exactly one record.  When `main` has set it up
the table is the single entry `checkInId` with empty status, and after every sequence
of actions of any sessions the table has the one key `checkInId`, its record has
`Id = checkInId`, and `getCheckIn` returns a list of length 1. -/
theorem store_has_one_record (checkInId : Bytes) (evs : List Event) :
    (main checkInId).checkIns = [(checkInId, { Id := checkInId, Status := [] })]
      ∧ ∃ status,
          (reached checkInId evs).checkIns = [(checkInId, { Id := checkInId, Status := status })]
            ∧ (reached checkInId evs).checkIns.keys = [checkInId]
            ∧ getCheckIn (reached checkInId evs) = [{ Id := checkInId, Status := status }]
            ∧ (getCheckIn (reached checkInId evs)).length = 1 := by
  obtain ⟨⟨status, hs⟩, hid⟩ := reached_invariant checkInId evs
  rw [hid] at hs
  refine ⟨by simp [main, GoMap.set], status, hs, ?_, ?_, ?_⟩ <;>
    simp [getCheckIn, GoMap.values, GoMap.keys, hs]

/-! ## Keepalive -/

/-- C2: for a frame handled by the read loop (the message is read and the deadline is
reset), the calls of `ws.WriteMessage` are exactly one `pong` when the frame is a text
frame whose payload trimmed of white space is `ping`, and none for every other frame;
handling a ping leaves the globals, hence the check-in table, unchanged. -/
theorem ping_gets_one_pong (g : Globals) (messageType : Nat) (msg : Bytes) (writeErr : Bool) :
    (loopBody g (.frame messageType msg writeErr)).writes
        = (if messageType = TextMessage ∧ trimSpace msg = ascii "ping"
            then [ascii "pong"] else [])
      ∧ (messageType = TextMessage ∧ trimSpace msg = ascii "ping" →
          (loopBody g (.frame messageType msg writeErr)).globals = g) := by
  rw [loopBody_frame]
  by_cases hp : isPing messageType msg = true
  · have h2 : messageType = TextMessage ∧ trimSpace msg = ascii "ping" := by
      simpa [isPing] using hp
    rw [if_pos hp, if_pos h2]
    exact ⟨rfl, fun _ => rfl⟩
  · have h2 : ¬ (messageType = TextMessage ∧ trimSpace msg = ascii "ping") := by
      simpa [isPing] using hp
    rw [if_neg hp, if_neg h2]
    exact ⟨rfl, fun h3 => absurd h3 h2⟩

theorem ping_gets_one_pong_witness :
    (loopBody (main (ascii "id0")) (.frame TextMessage (ascii "  ping\n") false)).globals
      = main (ascii "id0") :=
  (ping_gets_one_pong (main (ascii "id0")) TextMessage (ascii "  ping\n") false).2
    (by decide)

/-! ## Malformed payloads -/

/-- C3: for a payload that is not a ping and on which `json.Unmarshal` fails, the
iteration ends with the next iteration (the session does not terminate) and leaves
the globals as they were, so `getCheckIn` returns the same value; a frame that
parses, received next on the same session, is applied to the check-in table. -/
theorem malformed_payload_is_skipped (checkInId : Bytes) (evs : List Event)
    (messageType : Nat) (msg : Bytes) (writeErr : Bool)
    (messageType2 : Nat) (msg2 : Bytes) (writeErr2 : Bool) (m2 : CheckIn)
    (hping : isPing messageType msg = false) (hbad : jsonUnmarshal msg = none)
    (hping2 : isPing messageType2 msg2 = false) (hok : jsonUnmarshal msg2 = some m2) :
    (loopBody (reached checkInId evs) (.frame messageType msg writeErr)).control = .next
      ∧ (loopBody (reached checkInId evs) (.frame messageType msg writeErr)).globals
          = reached checkInId evs
      ∧ getCheckIn (loopBody (reached checkInId evs) (.frame messageType msg writeErr)).globals
          = getCheckIn (reached checkInId evs)
      ∧ (readLoop (reached checkInId evs)
            [.frame messageType msg writeErr, .frame messageType2 msg2 writeErr2]).control
          = .next
      ∧ getCheckIn (readLoop (reached checkInId evs)
            [.frame messageType msg writeErr, .frame messageType2 msg2 writeErr2]).globals
          = [{ Id := checkInId, Status := m2.Status }] := by
  obtain ⟨hs, hid⟩ := reached_invariant checkInId evs
  have h1 := getCheckIn_updateStatus (reached checkInId evs) m2 hs
  rw [hid] at h1
  have hb : loopBody (reached checkInId evs) (.frame messageType msg writeErr)
      = { globals := reached checkInId evs, writes := [], control := .next } := by
    rw [loopBody_frame]
    simp [hping, hbad]
  have hg : loopBody (reached checkInId evs) (.frame messageType2 msg2 writeErr2)
      = { globals := updateStatus (reached checkInId evs) m2, writes := [], control := .next } := by
    rw [loopBody_frame]
    simp [hping2, hok]
  refine ⟨by rw [hb], by rw [hb], by rw [hb], ?_, ?_⟩
  · simp [readLoop, hb, hg]
  · simp [readLoop, hb, hg, h1]

theorem malformed_payload_is_skipped_witness :
    getCheckIn (readLoop (reached (ascii "id0") [])
        [.frame TextMessage (ascii "\x7d\x7bgarbled") false,
          .frame TextMessage (ascii "\x7b\"id\":\"x\",\"status\":\"busy\"\x7d") false]).globals
      = [{ Id := ascii "id0", Status := ascii "busy" }] :=
  (malformed_payload_is_skipped (ascii "id0") [] TextMessage (ascii "\x7d\x7bgarbled") false
    TextMessage (ascii "\x7b\"id\":\"x\",\"status\":\"busy\"\x7d") false
    { Id := ascii "x", Status := ascii "busy" }
    (by decide) (by decide) (by decide) (by decide)).2.2.2.2

theorem namesStatus_of_namesId (key : Bytes) (h : namesId key = true) :
    namesStatus key = false := by
  have h1 : foldName key = ascii "ID" := by simpa [namesId] using h
  simp only [namesStatus, h1]
  decide

theorem decodeMembers_cons (key : Bytes) (v : Json) (rest : List (Bytes × Json)) (m : CheckIn) :
    decodeMembers ((key, v) :: rest) m
      = if namesId key then
          match storeString m.Id v with
          | some s => decodeMembers rest { m with Id := s }
          | none => none
        else if namesStatus key then
          match storeString m.Status v with
          | some s => decodeMembers rest { m with Status := s }
          | none => none
        else decodeMembers rest m := rfl

theorem lastStatus_cons (key : Bytes) (v : Json) (rest : List (Bytes × Json)) (s0 : Bytes) :
    (lastStatus ((key, v) :: rest)).getD s0
      = (lastStatus rest).getD
          (if namesStatus key then (match v with | .str s => s | _ => s0) else s0) := by
  cases h : lastStatus rest with
  | some t => simp [lastStatus, h]
  | none =>
    by_cases hk : namesStatus key = true
    · cases v <;> simp [lastStatus, h, hk]
    · simp [lastStatus, h, hk]

theorem decodeMembers_rejected (members : List (Bytes × Json)) (m : CheckIn)
    (h : acceptedMembers members = false) : decodeMembers members m = none := by
  induction members generalizing m with
  | nil => simp [acceptedMembers] at h
  | cons kv rest ih =>
    obtain ⟨key, v⟩ := kv
    have hrest : ∀ m2, acceptedMembers rest = false → decodeMembers rest m2 = none :=
      fun m2 h2 => ih m2 h2
    rw [decodeMembers_cons]
    by_cases hr : acceptedMembers rest = true
    · have hhead : (!(namesId key || namesStatus key) || isStringOrNull v) = false := by
        have h2 : ((!(namesId key || namesStatus key) || isStringOrNull v)
            && acceptedMembers rest) = false := by
          simpa [acceptedMembers] using h
        rw [hr, Bool.and_true] at h2
        exact h2
      have hv : isStringOrNull v = false := by
        cases hx : isStringOrNull v
        · rfl
        · rw [hx, Bool.or_true] at hhead
          exact absurd hhead (by decide)
      have hstore : ∀ cur, storeString cur v = none := by
        intro cur
        cases v <;> simp [isStringOrNull] at hv <;> rfl
      have hname : (namesId key || namesStatus key) = true := by
        cases hx : (namesId key || namesStatus key)
        · rw [hx, hv] at hhead
          exact absurd hhead (by decide)
        · rfl
      by_cases hid : namesId key = true
      · simp [hid, hstore]
      · have hst : namesStatus key = true := by
          cases hx : namesId key
          · rw [hx, Bool.false_or] at hname
            exact hname
          · exact absurd hx hid
        simp [hid, hst, hstore]
    · have hr2 : acceptedMembers rest = false := by
        cases hx : acceptedMembers rest
        · rfl
        · exact absurd hx hr
      split
      · split
        · exact hrest _ hr2
        · rfl
      · split
        · split
          · exact hrest _ hr2
          · rfl
        · exact hrest _ hr2

theorem decodeMembers_accepted (members : List (Bytes × Json)) (m : CheckIn)
    (h : acceptedMembers members = true) :
    ∃ m2, decodeMembers members m = some m2
      ∧ m2.Status = (lastStatus members).getD m.Status := by
  induction members generalizing m with
  | nil => exact ⟨m, rfl, rfl⟩
  | cons kv rest ih =>
    obtain ⟨key, v⟩ := kv
    have h2 : ((!(namesId key || namesStatus key) || isStringOrNull v)
        && acceptedMembers rest) = true := by
      simpa [acceptedMembers] using h
    have hr : acceptedMembers rest = true := by
      cases hx : acceptedMembers rest
      · rw [hx, Bool.and_false] at h2
        exact absurd h2 (by decide)
      · rfl
    have hhead : (!(namesId key || namesStatus key) || isStringOrNull v) = true := by
      rw [hr, Bool.and_true] at h2
      exact h2
    rw [decodeMembers_cons, lastStatus_cons]
    by_cases hid : namesId key = true
    · have hst := namesStatus_of_namesId key hid
      have hv : isStringOrNull v = true := by
        rw [hid] at hhead
        simpa using hhead
      cases v <;> simp [isStringOrNull] at hv
      · obtain ⟨m2, hm, hs⟩ := ih { m with Id := m.Id } hr
        exact ⟨m2, by simpa [hid, storeString] using hm, by simpa [hst] using hs⟩
      · rename_i s
        obtain ⟨m2, hm, hs⟩ := ih { m with Id := s } hr
        exact ⟨m2, by simpa [hid, storeString] using hm, by simpa [hst] using hs⟩
    · by_cases hst : namesStatus key = true
      · have hv : isStringOrNull v = true := by
          rw [hst, Bool.or_true] at hhead
          simpa using hhead
        cases v <;> simp [isStringOrNull] at hv
        · obtain ⟨m2, hm, hs⟩ := ih { m with Status := m.Status } hr
          exact ⟨m2, by simpa [hid, hst, storeString] using hm, by simpa [hst] using hs⟩
        · rename_i s
          obtain ⟨m2, hm, hs⟩ := ih { m with Status := s } hr
          exact ⟨m2, by simpa [hid, hst, storeString] using hm, by simpa [hst] using hs⟩
      · obtain ⟨m2, hm, hs⟩ := ih m hr
        exact ⟨m2, by simpa [hid, hst] using hm, by simpa [hst] using hs⟩

theorem lastStatus_of_no_status (members : List (Bytes × Json))
    (h : members.all (fun kv => !namesStatus kv.1) = true) : lastStatus members = none := by
  induction members with
  | nil => rfl
  | cons kv rest ih =>
    obtain ⟨key, v⟩ := kv
    have h2 : (!namesStatus key && rest.all (fun kv => !namesStatus kv.1)) = true := by
      simpa using h
    have hk : namesStatus key = false := by
      cases hx : namesStatus key
      · rfl
      · rw [hx] at h2
        simp at h2
    have hr : rest.all (fun kv => !namesStatus kv.1) = true := by
      rw [hk] at h2
      simpa using h2
    simp [lastStatus, ih hr, hk]

theorem jsonUnmarshal_rejected (msg : Bytes) (h : isAcceptedUpdate msg = false) :
    jsonUnmarshal msg = none := by
  unfold isAcceptedUpdate at h
  unfold jsonUnmarshal
  split at h
  · exact absurd h (by decide)
  · rename_i members hp
    rw [hp]
    exact decodeMembers_rejected members _ h
  · rename_i hnull hobj
    split
    · rfl
    · rename_i hp
      exact absurd hp (hnull)
    · rename_i members hp
      exact absurd hp (hobj members)
    · rfl

theorem jsonUnmarshal_accepted (msg : Bytes) (h : isAcceptedUpdate msg = true) :
    ∃ m, jsonUnmarshal msg = some m ∧ m.Status = acceptedStatus msg := by
  unfold isAcceptedUpdate at h
  unfold jsonUnmarshal acceptedStatus
  split at h
  · rename_i hp
    rw [hp]
    exact ⟨_, rfl, rfl⟩
  · rename_i members hp
    rw [hp]
    exact decodeMembers_accepted members _ h
  · exact absurd h (by decide)

/-- C4, as the code has it: a payload that is neither the literal text ping nor a
state update of the accepted shape (the JSON text `null`, or a JSON object in which
every member named `id` or `status`, letter case ignored, is a string or `null`)
fails to parse and is dropped: the iteration writes nothing, goes on with the loop
and leaves the globals, hence the check-in table, as they were.  A payload of the
accepted shape that is not a ping is parsed and applied: the record gets the string
of its last `status` member that is a string, and the empty status when there is none,
which is the case of `null`, of the empty object and of every accepted object without
a `status` member.  An object without `status` whose `id` is a number is not of the
accepted shape and is dropped. -/
theorem unaccepted_payload_is_dropped (checkInId : Bytes) (evs : List Event)
    (messageType : Nat) (msg : Bytes) (writeErr : Bool)
    (hping : isPing messageType msg = false) :
    (isAcceptedUpdate msg = false →
        jsonUnmarshal msg = none
          ∧ loopBody (reached checkInId evs) (.frame messageType msg writeErr)
              = { globals := reached checkInId evs, writes := [], control := .next })
      ∧ (isAcceptedUpdate msg = true →
          (∃ m, jsonUnmarshal msg = some m ∧ m.Status = acceptedStatus msg)
            ∧ getCheckIn
                (loopBody (reached checkInId evs) (.frame messageType msg writeErr)).globals
              = [{ Id := checkInId, Status := acceptedStatus msg }])
      ∧ (∀ members, parseJson msg = some (.obj members) →
          members.all (fun kv => !namesStatus kv.1) = true → acceptedStatus msg = [])
      ∧ (isAcceptedUpdate (ascii "null") = true ∧ acceptedStatus (ascii "null") = [])
      ∧ (isAcceptedUpdate (ascii "\x7b\x7d") = true ∧ acceptedStatus (ascii "\x7b\x7d") = [])
      ∧ (isAcceptedUpdate (ascii "\x7b\"id\":\"x\"\x7d") = true
          ∧ acceptedStatus (ascii "\x7b\"id\":\"x\"\x7d") = [])
      ∧ isAcceptedUpdate (ascii "\x7b\"id\":5\x7d") = false := by
  refine ⟨?_, ?_, ?_, by decide, by decide, by decide, by decide⟩
  · intro hrej
    have hj := jsonUnmarshal_rejected msg hrej
    refine ⟨hj, ?_⟩
    rw [loopBody_frame]
    simp [hping, hj]
  · intro hacc
    obtain ⟨m, hj, hs⟩ := jsonUnmarshal_accepted msg hacc
    refine ⟨⟨m, hj, hs⟩, ?_⟩
    obtain ⟨hsr, hid⟩ := reached_invariant checkInId evs
    have h1 := getCheckIn_updateStatus (reached checkInId evs) m hsr
    rw [hid, hs] at h1
    rw [loopBody_frame]
    simp [hping, hj, h1]
  · intro members hp hno
    simp [acceptedStatus, hp, lastStatus_of_no_status members hno]

theorem unaccepted_payload_is_dropped_witness :
    loopBody
        (reached (ascii "id0")
          [.upgraded 1 (ascii "a") false,
            .iteration 1 (.frame TextMessage (ascii "\x7b\"status\":\"busy\"\x7d") false)])
        (.frame TextMessage (ascii "\x7b\"id\":5\x7d") false)
      = { globals := reached (ascii "id0")
            [.upgraded 1 (ascii "a") false,
              .iteration 1 (.frame TextMessage (ascii "\x7b\"status\":\"busy\"\x7d") false)],
          writes := [], control := .next }
      ∧ getCheckIn (loopBody
          (reached (ascii "id0")
            [.upgraded 1 (ascii "a") false,
              .iteration 1 (.frame TextMessage (ascii "\x7b\"status\":\"busy\"\x7d") false)])
          (.frame TextMessage (ascii "\x7b\"ID\":null,\"x\":[1]\x7d") false)).globals
        = [{ Id := ascii "id0", Status := [] }] :=
  ⟨((unaccepted_payload_is_dropped (ascii "id0")
      [.upgraded 1 (ascii "a") false,
        .iteration 1 (.frame TextMessage (ascii "\x7b\"status\":\"busy\"\x7d") false)]
      TextMessage (ascii "\x7b\"id\":5\x7d") false (by decide)).1 (by decide)).2,
    (((unaccepted_payload_is_dropped (ascii "id0")
      [.upgraded 1 (ascii "a") false,
        .iteration 1 (.frame TextMessage (ascii "\x7b\"status\":\"busy\"\x7d") false)]
      TextMessage (ascii "\x7b\"ID\":null,\"x\":[1]\x7d") false (by decide)).2.1
        (by decide)).2).trans (by decide)⟩

/-- C4 as stated fails: `null`, the empty object and an object without a `status`
member are neither a ping nor a JSON object with a string id and a string status, yet
`json.Unmarshal` accepts them, and the frame replaces the status `busy` of the
check-in record by the empty status. -/
theorem null_payload_resets_status :
    (isPing TextMessage (ascii "null") = false
        ∧ isStateUpdateObject (ascii "null") = false
        ∧ jsonUnmarshal (ascii "null") ≠ none
        ∧ getCheckIn (updateStatus (main (ascii "id0")) { Id := ascii "x", Status := ascii "busy" })
            = [{ Id := ascii "id0", Status := ascii "busy" }]
        ∧ getCheckIn (loopBody
              (updateStatus (main (ascii "id0")) { Id := ascii "x", Status := ascii "busy" })
              (.frame TextMessage (ascii "null") false)).globals
            = [{ Id := ascii "id0", Status := [] }])
      ∧ (isPing TextMessage (ascii "\x7b\x7d") = false
        ∧ isStateUpdateObject (ascii "\x7b\x7d") = false
        ∧ jsonUnmarshal (ascii "\x7b\x7d") ≠ none
        ∧ getCheckIn (loopBody
              (updateStatus (main (ascii "id0")) { Id := ascii "x", Status := ascii "busy" })
              (.frame TextMessage (ascii "\x7b\x7d") false)).globals
            = [{ Id := ascii "id0", Status := [] }])
      ∧ (isPing TextMessage (ascii "\x7b\"id\":\"x\"\x7d") = false
        ∧ isStateUpdateObject (ascii "\x7b\"id\":\"x\"\x7d") = false
        ∧ jsonUnmarshal (ascii "\x7b\"id\":\"x\"\x7d") ≠ none
        ∧ getCheckIn (loopBody
              (updateStatus (main (ascii "id0")) { Id := ascii "x", Status := ascii "busy" })
              (.frame TextMessage (ascii "\x7b\"id\":\"x\"\x7d") false)).globals
            = [{ Id := ascii "id0", Status := [] }]) := by
  decide

/-! ## The registry -/

theorem applyCalls_cons (g : Globals) (c : Call) (rest : List Call) :
    applyCalls g (c :: rest) = applyCalls (c.apply g) rest := rfl

theorem applyCalls_get (g : Globals) (calls : List Call) (ws : Handle) :
    ((applyCalls g calls).clients.get ws).isSome
      = (unmatchedRegister calls ws
          || ((g.clients.get ws).isSome && !calls.any (Call.unregisters ws))) := by
  induction calls generalizing g with
  | nil => simp [applyCalls, unmatchedRegister]
  | cons c rest ih =>
    rw [applyCalls_cons, ih]
    cases c with
    | register h id =>
      by_cases hh : h = ws
      · subst hh
        simp only [Call.apply, register, GoMap.get_set_self, unmatchedRegister, List.any_cons,
          Call.unregisters]
        cases unmatchedRegister rest h <;> cases (List.any rest (Call.unregisters h))
          <;> cases (GoMap.get g.clients h).isSome <;> simp
      · have h2 : ws ≠ h := fun h3 => hh h3.symm
        have hb : (h == ws) = false := by simp [hh]
        simp [Call.apply, register, GoMap.get_set_of_ne _ _ h2, unmatchedRegister,
          Call.unregisters, hb]
    | unregister h =>
      by_cases hh : h = ws
      · subst hh
        simp [Call.apply, unregister, GoMap.get_delete_self, unmatchedRegister,
          Call.unregisters]
      · have h2 : ws ≠ h := fun h3 => hh h3.symm
        have hb : (h == ws) = false := by simp [hh]
        simp [Call.apply, unregister, GoMap.get_delete_of_ne _ h2, unmatchedRegister,
          Call.unregisters, hb]

theorem applyCalls_nodup (g : Globals) (calls : List Call) (h : g.clients.keys.Nodup) :
    (applyCalls g calls).clients.keys.Nodup := by
  induction calls generalizing g with
  | nil => exact h
  | cons c rest ih =>
    rw [applyCalls_cons]
    apply ih
    cases c with
    | register ws id => exact GoMap.nodup_keys_set _ _ _ h
    | unregister ws => exact GoMap.nodup_keys_delete _ _ h

theorem applyCalls_connected (g : Globals) (calls : List Call)
    (h : ∀ e ∈ g.clients, e.2.Status = ascii "connected") :
    ∀ e ∈ (applyCalls g calls).clients, e.2.Status = ascii "connected" := by
  induction calls generalizing g with
  | nil => exact h
  | cons c rest ih =>
    rw [applyCalls_cons]
    apply ih
    cases c with
    | register ws id =>
      intro e he
      rcases GoMap.mem_of_mem_set _ _ _ _ he with h1 | h1
      · rw [h1]
      · exact h e h1
    | unregister ws =>
      intro e he
      exact h e (GoMap.mem_of_mem_delete _ _ _ he)

/-- C5: after any sequence of register and unregister calls on the empty registry,
taken in the order the lock serialises them, the registry has no two entries for one
handle, it has an entry for a handle exactly when the handle has an unmatched register
call (so the number of its entries for a handle is 1 or 0 accordingly), the snapshot
of `getClients` is made of the entry of each of these handles, one per handle, and
every entry of the snapshot has status `connected`. -/
theorem registry_consistency (checkInId : Bytes) (calls : List Call) :
    (applyCalls (main checkInId) calls).clients.keys.Nodup
      ∧ (∀ ws, ws ∈ (applyCalls (main checkInId) calls).clients.keys
          ↔ unmatchedRegister calls ws = true)
      ∧ (∀ ws, (applyCalls (main checkInId) calls).clients.keys.count ws
          = if unmatchedRegister calls ws = true then 1 else 0)
      ∧ (getClients (applyCalls (main checkInId) calls)).map some
          = (applyCalls (main checkInId) calls).clients.keys.map
              (applyCalls (main checkInId) calls).clients.get
      ∧ (getClients (applyCalls (main checkInId) calls)).length
          = (applyCalls (main checkInId) calls).clients.keys.length
      ∧ (getClients (applyCalls (main checkInId) calls)).all
          (fun c => c.Status == ascii "connected") = true := by
  have hn : (applyCalls (main checkInId) calls).clients.keys.Nodup :=
    applyCalls_nodup (main checkInId) calls (by simp [main, GoMap.keys])
  have hm : ∀ ws, ws ∈ (applyCalls (main checkInId) calls).clients.keys
      ↔ unmatchedRegister calls ws = true := by
    intro ws
    rw [GoMap.mem_keys_iff, applyCalls_get]
    simp [main, GoMap.get]
  refine ⟨hn, hm, ?_, GoMap.values_eq_get _ hn, ?_, ?_⟩
  · intro ws
    rw [List.count_eq_of_nodup hn]
    simp only [hm ws]
  · simp [getClients, GoMap.values, GoMap.keys]
  · rw [List.all_eq_true]
    intro c hc
    obtain ⟨e, he, rfl⟩ := List.mem_map.mp hc
    have := applyCalls_connected (main checkInId) calls (by simp [main]) e he
    simp [this]

/-- C6: unregistering a handle that is absent leaves the globals unchanged,
unregistering twice gives the same as unregistering once, the registry afterwards is
the registry before without the entries of that handle, so the entry of every other
handle is unchanged; `unregister` has no failing outcome. -/
theorem unregister_idempotent (g : Globals) (ws : Handle) :
    (g.clients.get ws = none → unregister g ws = g)
      ∧ unregister (unregister g ws) ws = unregister g ws
      ∧ (unregister g ws).clients.get ws = none
      ∧ (unregister g ws).clients = g.clients.filter (fun e => decide (e.1 ≠ ws))
      ∧ (∀ h, h ≠ ws → (unregister g ws).clients.get h = g.clients.get h)
      ∧ (unregister g ws).checkIns = g.checkIns := by
  have h1 : (unregister g ws).clients.get ws = none := GoMap.get_delete_self _ _
  refine ⟨?_, ?_, h1, GoMap.delete_eq_filter _ _, ?_, rfl⟩
  · intro h
    simp [unregister, GoMap.delete_of_get_none _ _ h]
  · show ({ unregister g ws with clients := (unregister g ws).clients.delete ws } : Globals)
      = unregister g ws
    rw [GoMap.delete_of_get_none _ _ h1]
  · intro h hne
    exact GoMap.get_delete_of_ne _ hne

theorem unregister_idempotent_witness :
    unregister (main (ascii "id0")) 7 = main (ascii "id0")
      ∧ (unregister (register (register (main (ascii "id0")) 7 (ascii "a")) 8 (ascii "b")) 7).clients.get 8
          = some { Id := ascii "b", Status := ascii "connected" } :=
  ⟨(unregister_idempotent (main (ascii "id0")) 7).1 (by decide),
    ((unregister_idempotent
        (register (register (main (ascii "id0")) 7 (ascii "a")) 8 (ascii "b")) 7).2.2.2.2.1
      8 (by decide)).trans (by decide)⟩

/-! ## Termination of a session -/

theorem readLoop_cons (g : Globals) (ev : Recv) (rest : List Recv) :
    readLoop g (ev :: rest)
      = if ev.fatal then loopBody g ev
        else
          { globals := (readLoop (loopBody g ev).globals rest).globals,
            writes := (loopBody g ev).writes ++ (readLoop (loopBody g ev).globals rest).writes,
            control := (readLoop (loopBody g ev).globals rest).control } := by
  have hc := loopBody_control g ev
  cases hf : ev.fatal <;> simp [hf] at hc <;> simp [readLoop, hc]

theorem readLoop_clients (g : Globals) (evs : List Recv) :
    (readLoop g evs).globals.clients = g.clients := by
  induction evs generalizing g with
  | nil => rfl
  | cons ev rest ih =>
    rw [readLoop_cons]
    split
    · exact loopBody_clients g ev
    · exact (ih _).trans (loopBody_clients g ev)

theorem readLoop_control (g : Globals) (evs : List Recv) :
    (readLoop g evs).control = if evs.any Recv.fatal then .exit else .next := by
  induction evs generalizing g with
  | nil => rfl
  | cons ev rest ih =>
    rw [readLoop_cons]
    cases hf : ev.fatal
    · simp [hf, ih]
    · simp [hf, loopBody_control]

theorem readLoop_append_exit (g : Globals) (pre rest : List Recv)
    (h : (readLoop g pre).control = .exit) : readLoop g (pre ++ rest) = readLoop g pre := by
  induction pre generalizing g with
  | nil => simp [readLoop] at h
  | cons ev more ih =>
    rw [List.cons_append, readLoop_cons, readLoop_cons]
    rw [readLoop_cons] at h
    cases hf : ev.fatal
    · simp only [hf] at h
      simp [hf, ih _ h]
    · simp [hf]

theorem readLoop_append_next (g : Globals) (pre rest : List Recv)
    (h : (readLoop g pre).control = .next) :
    readLoop g (pre ++ rest)
      = { globals := (readLoop (readLoop g pre).globals rest).globals,
          writes := (readLoop g pre).writes ++ (readLoop (readLoop g pre).globals rest).writes,
          control := (readLoop (readLoop g pre).globals rest).control } := by
  induction pre generalizing g with
  | nil => simp [readLoop]
  | cons ev more ih =>
    rw [List.cons_append, readLoop_cons]
    rw [readLoop_cons] at h
    cases hf : ev.fatal
    · simp only [hf] at h
      rw [readLoop_cons]
      simp [hf, ih _ h]
    · simp [hf, loopBody_control] at h

/-- C7: when the upgrade fails `handleWebSocket` returns an error and the globals,
hence the registry, are untouched.  When it succeeds with connection `ws`, then for
every way the session terminates (the first deadline cannot be set, or some iteration
of the loop meets a read error, a failure to reset the deadline or a failure to write
`pong`) the handler returns, and the registry afterwards has no entry for `ws` and is
the registry before without entries of `ws`, so that the entry of every other handle
is unchanged.  A session none of whose answers terminates it has not returned. -/
theorem cleanup_is_unconditional (g : Globals) (c : Conn) :
    (c.upgrade = none → handleWebSocket g c = some { globals := g, writes := [], err := true })
      ∧ (∀ ws, c.upgrade = some ws →
          (c.deadlineErr = true ∨ c.inbound.any Recv.fatal = true) →
          ∃ r, handleWebSocket g c = some r
            ∧ r.globals.clients.get ws = none
            ∧ r.globals.clients = g.clients.filter (fun e => decide (e.1 ≠ ws))
            ∧ ∀ h, h ≠ ws → r.globals.clients.get h = g.clients.get h)
      ∧ (∀ ws, c.upgrade = some ws → c.deadlineErr = false →
          c.inbound.any Recv.fatal = false → handleWebSocket g c = none) := by
  refine ⟨?_, ?_, ?_⟩
  · intro hu
    simp [handleWebSocket, hu]
  · intro ws hu hterm
    have key : ∀ g2 : Globals, g2.clients = (register g ws c.id).clients →
        (unregister g2 ws).clients.get ws = none
          ∧ (unregister g2 ws).clients = g.clients.filter (fun e => decide (e.1 ≠ ws))
          ∧ ∀ h, h ≠ ws → (unregister g2 ws).clients.get h = g.clients.get h := by
      intro g2 h2
      have h3 : (unregister g2 ws).clients = g.clients.delete ws := by
        simp [unregister, h2, register, GoMap.delete_set_self]
      rw [h3]
      exact ⟨GoMap.get_delete_self _ _, GoMap.delete_eq_filter _ _,
        fun h hne => GoMap.get_delete_of_ne _ hne⟩
    by_cases hd : c.deadlineErr = true
    · exact ⟨{ globals := unregister (register g ws c.id) ws, writes := [], err := true },
        by simp [handleWebSocket, hu, hd], key _ rfl⟩
    · have hf : c.inbound.any Recv.fatal = true := hterm.resolve_left hd
      have hc : (readLoop (register g ws c.id) c.inbound).control = .exit := by
        rw [readLoop_control, hf]
        rfl
      exact ⟨Returned.mk (unregister (readLoop (register g ws c.id) c.inbound).globals ws)
          (readLoop (register g ws c.id) c.inbound).writes false,
        by simp [handleWebSocket, hu, hd, hc], key _ (readLoop_clients _ _)⟩
  · intro ws hu hd hf
    have hc : (readLoop (register g ws c.id) c.inbound).control = .next := by
      rw [readLoop_control, hf]
      rfl
    simp [handleWebSocket, hu, hd, hc]

theorem cleanup_is_unconditional_witness :
    ∃ r, handleWebSocket (register (main (ascii "id0")) 8 (ascii "b"))
        { upgrade := some 7, id := ascii "a", deadlineErr := false,
          inbound := [.frame TextMessage (ascii "ping") false, .readErr true] } = some r
      ∧ r.globals.clients.get 7 = none
      ∧ r.globals.clients
          = (register (main (ascii "id0")) 8 (ascii "b")).clients.filter
              (fun e => decide (e.1 ≠ 7))
      ∧ ∀ h, h ≠ 7 →
          r.globals.clients.get h = (register (main (ascii "id0")) 8 (ascii "b")).clients.get h :=
  (cleanup_is_unconditional (register (main (ascii "id0")) 8 (ascii "b"))
    { upgrade := some 7, id := ascii "a", deadlineErr := false,
      inbound := [.frame TextMessage (ascii "ping") false, .readErr true] }).2.1
    7 rfl (Or.inr (by decide))

/-- C8: if writing the `pong` reply to a ping fails, that iteration changes no global
and returns from the loop; the loop ends at that frame, so the frames that follow are
not processed: the globals and the calls of `ws.WriteMessage` are those of the frames
before it plus the one `pong`; then the handler returns with the connection
unregistered; in a run of several sessions the loop of that connection is no longer
running and a later iteration for it changes nothing. -/
theorem send_failure_is_fatal (g : Globals) (messageType : Nat) (msg : Bytes)
    (pre rest : List Recv) (hping : isPing messageType msg = true) :
    loopBody g (.frame messageType msg true)
        = { globals := g, writes := [ascii "pong"], control := .exit }
      ∧ readLoop g (pre ++ .frame messageType msg true :: rest)
          = readLoop g (pre ++ [.frame messageType msg true])
      ∧ ((readLoop g pre).control = .next →
          readLoop g (pre ++ .frame messageType msg true :: rest)
            = { globals := (readLoop g pre).globals,
                writes := (readLoop g pre).writes ++ [ascii "pong"],
                control := .exit })
      ∧ (∀ ws id, ∃ r,
          handleWebSocket g (Conn.mk (some ws) id false
              (pre ++ .frame messageType msg true :: rest)) = some r
            ∧ handleWebSocket g (Conn.mk (some ws) id false
                (pre ++ [.frame messageType msg true])) = some r
            ∧ r.globals.clients.get ws = none)
      ∧ (∀ (w : World) (ws : Handle) (ev : Recv), ws ∈ w.running →
          ws ∉ (w.step (.iteration ws (.frame messageType msg true))).running
            ∧ (w.step (.iteration ws (.frame messageType msg true))).globals = w.globals
            ∧ (w.step (.iteration ws (.frame messageType msg true))).step (.iteration ws ev)
                = w.step (.iteration ws (.frame messageType msg true))) := by
  have hb : ∀ g2 : Globals, loopBody g2 (.frame messageType msg true)
      = { globals := g2, writes := [ascii "pong"], control := .exit } := by
    intro g2
    rw [loopBody_frame]
    simp [hping]
  have hone : ∀ (g2 : Globals) (l : List Recv), readLoop g2 (.frame messageType msg true :: l)
      = { globals := g2, writes := [ascii "pong"], control := .exit } := by
    intro g2 l
    rw [readLoop_cons]
    simp [Recv.fatal, hping, hb]
  have hsame : ∀ g2 : Globals, readLoop g2 (pre ++ .frame messageType msg true :: rest)
      = readLoop g2 (pre ++ [.frame messageType msg true]) := by
    intro g2
    cases hc : (readLoop g2 pre).control
    · rw [readLoop_append_next _ _ _ hc, readLoop_append_next _ _ _ hc, hone, hone]
    · rw [readLoop_append_exit _ _ _ hc, readLoop_append_exit _ _ _ hc]
  refine ⟨hb g, hsame g, ?_, ?_, ?_⟩
  · intro hc
    rw [readLoop_append_next _ _ _ hc, hone]
  · intro ws id
    have hf : (pre ++ [Recv.frame messageType msg true]).any Recv.fatal = true := by
      simp [Recv.fatal, hping]
    have hc : (readLoop (register g ws id) (pre ++ [.frame messageType msg true])).control
        = .exit := by
      rw [readLoop_control, hf]
      rfl
    refine ⟨Returned.mk
      (unregister (readLoop (register g ws id) (pre ++ [.frame messageType msg true])).globals ws)
      (readLoop (register g ws id) (pre ++ [.frame messageType msg true])).writes false,
      ?_, ?_, ?_⟩
    · simp [handleWebSocket, hsame, hc]
    · simp [handleWebSocket, hc]
    · exact GoMap.get_delete_self _ _
  · intro w ws ev hrun
    have hs : w.step (.iteration ws (.frame messageType msg true))
        = { globals := w.globals, running := w.running.filter (fun h => h != ws),
            sent := w.sent ++ [(ws, ascii "pong")] } := by
      rw [step_iteration, if_pos hrun, hb]
      simp
    have hnot : ws ∉ w.running.filter (fun h => h != ws) := by
      simp [List.mem_filter]
    rw [hs]
    refine ⟨hnot, rfl, ?_⟩
    rw [step_iteration, if_neg hnot]

theorem send_failure_is_fatal_witness :
    readLoop (main (ascii "id0"))
        ([.frame TextMessage (ascii "\x7b\"status\":\"busy\"\x7d") false]
          ++ .frame TextMessage (ascii " ping ") true
            :: [.frame TextMessage (ascii "\x7b\"status\":\"free\"\x7d") false])
      = { globals := updateStatus (main (ascii "id0")) { Id := [], Status := ascii "busy" },
          writes := [ascii "pong"], control := .exit } :=
  ((send_failure_is_fatal (main (ascii "id0")) TextMessage (ascii " ping ")
    [.frame TextMessage (ascii "\x7b\"status\":\"busy\"\x7d") false]
    [.frame TextMessage (ascii "\x7b\"status\":\"free\"\x7d") false] (by decide)).2.2.1
      (by decide)).trans (by decide)

/-! ## Order of the updates -/

theorem lastUpdate_cons (frame : Nat × Bytes) (rest : List (Nat × Bytes)) (s0 : Bytes) :
    (lastUpdate (frame :: rest)).getD s0 = (lastUpdate rest).getD ((frameUpdate frame).getD s0) := by
  cases h : lastUpdate rest <;> simp [lastUpdate, h]

theorem loopBody_frame_status (g : Globals) (frame : Nat × Bytes) (s0 : Bytes)
    (h : g.checkIns = [(g.checkInId, { Id := g.checkInId, Status := s0 })]) :
    (loopBody g (.frame frame.1 frame.2 false)).globals.checkIns
      = [(g.checkInId, { Id := g.checkInId, Status := (frameUpdate frame).getD s0 })] := by
  rw [loopBody_frame]
  by_cases hp : isPing frame.1 frame.2 = true
  · simp [hp, frameUpdate, h]
  · cases hj : jsonUnmarshal frame.2 with
    | none => simp [hp, hj, frameUpdate, h]
    | some m => simp [hp, hj, frameUpdate, checkIns_updateStatus g m ⟨s0, h⟩]

theorem readLoop_frames (g : Globals) (frames : List (Nat × Bytes)) (s0 : Bytes)
    (h : g.checkIns = [(g.checkInId, { Id := g.checkInId, Status := s0 })]) :
    (readLoop g (frames.map fun f => Recv.frame f.1 f.2 false)).globals.checkIns
      = [(g.checkInId, { Id := g.checkInId, Status := (lastUpdate frames).getD s0 })] := by
  induction frames generalizing g s0 with
  | nil => simpa [readLoop, lastUpdate] using h
  | cons f rest ih =>
    have h1 := loopBody_frame_status g f s0 h
    have hid := loopBody_checkInId g (.frame f.1 f.2 false)
    rw [← hid] at h1
    have h2 := ih _ _ h1
    rw [List.map_cons, readLoop_cons, lastUpdate_cons]
    simp only [Recv.fatal, Bool.and_false, Bool.false_eq_true, if_false]
    rw [h2, hid]

theorem run_cons (w : World) (e : Event) (rest : List Event) :
    w.run (e :: rest) = (w.step e).run rest := rfl

theorem run_frames (w : World) (frames : List (Handle × Nat × Bytes)) (s0 : Bytes)
    (h : w.globals.checkIns = [(w.globals.checkInId, { Id := w.globals.checkInId, Status := s0 })])
    (hrun : ∀ f ∈ frames, f.1 ∈ w.running) :
    (w.run (frames.map fun f => Event.iteration f.1 (.frame f.2.1 f.2.2 false))).globals.checkIns
      = [(w.globals.checkInId,
          { Id := w.globals.checkInId, Status := (lastUpdate (frames.map Prod.snd)).getD s0 })] := by
  induction frames generalizing w s0 with
  | nil => simpa [World.run, lastUpdate] using h
  | cons f rest ih =>
    have hf : f.1 ∈ w.running := hrun f (List.mem_cons_self _ _)
    have hc : (loopBody w.globals (.frame f.2.1 f.2.2 false)).control = .next := by
      rw [loopBody_control]
      simp [Recv.fatal]
    have hs : w.step (.iteration f.1 (.frame f.2.1 f.2.2 false))
        = { globals := (loopBody w.globals (.frame f.2.1 f.2.2 false)).globals,
            running := w.running,
            sent := w.sent
              ++ (loopBody w.globals (.frame f.2.1 f.2.2 false)).writes.map (fun b => (f.1, b)) } := by
      rw [step_iteration, if_pos hf, hc]
      simp
    have h1 := loopBody_frame_status w.globals f.2 s0 h
    have hid := loopBody_checkInId w.globals (.frame f.2.1 f.2.2 false)
    rw [← hid] at h1
    have h2 := ih (w.step (.iteration f.1 (.frame f.2.1 f.2.2 false))) ((frameUpdate f.2).getD s0)
      (by rw [hs]; exact h1)
      (by rw [hs]; exact fun f2 hf2 => hrun f2 (List.mem_cons_of_mem _ hf2))
    rw [List.map_cons, run_cons, List.map_cons, lastUpdate_cons, h2, step_checkInId]

/-- C10: frames are applied in arrival order and the last write wins.  For every
sequence of frames processed without a receive or send failure, be it the frames of
one session in its read loop or the serialised interleaving of the frames of several
running sessions, `getCheckIn` afterwards returns the record with the status of the
last frame that is not a ping and parses, and with the prior status when there is no
such frame; with two conflicting updates the result is the second one in the
serialised order, hence exactly one of the two values. -/
theorem last_write_wins (checkInId : Bytes) (evs : List Event) (s0 : Bytes)
    (frames : List (Handle × Nat × Bytes))
    (hprior : getCheckIn (reached checkInId evs) = [{ Id := checkInId, Status := s0 }])
    (hrun : ∀ f ∈ frames, f.1 ∈ ((World.init checkInId).run evs).running) :
    getCheckIn (((World.init checkInId).run evs).run
          (frames.map fun f => Event.iteration f.1 (.frame f.2.1 f.2.2 false))).globals
        = [{ Id := checkInId, Status := (lastUpdate (frames.map Prod.snd)).getD s0 }]
      ∧ getCheckIn (readLoop (reached checkInId evs)
            ((frames.map Prod.snd).map fun f => Recv.frame f.1 f.2 false)).globals
          = [{ Id := checkInId, Status := (lastUpdate (frames.map Prod.snd)).getD s0 }]
      ∧ ∀ h1 h2 messageType1 msg1 messageType2 msg2 m1 m2,
          frames = [(h1, messageType1, msg1), (h2, messageType2, msg2)] →
          isPing messageType1 msg1 = false → jsonUnmarshal msg1 = some m1 →
          isPing messageType2 msg2 = false → jsonUnmarshal msg2 = some m2 →
          getCheckIn (((World.init checkInId).run evs).run
                (frames.map fun f => Event.iteration f.1 (.frame f.2.1 f.2.2 false))).globals
              = [{ Id := checkInId, Status := m2.Status }]
            ∧ (getCheckIn (((World.init checkInId).run evs).run
                  (frames.map fun f => Event.iteration f.1 (.frame f.2.1 f.2.2 false))).globals
                = [{ Id := checkInId, Status := m1.Status }]
              ∨ getCheckIn (((World.init checkInId).run evs).run
                  (frames.map fun f => Event.iteration f.1 (.frame f.2.1 f.2.2 false))).globals
                = [{ Id := checkInId, Status := m2.Status }]) := by
  obtain ⟨⟨s1, hs⟩, hid⟩ := reached_invariant checkInId evs
  have hs0 : s1 = s0 := by
    have h := hprior
    simp [getCheckIn, GoMap.values, hs, hid] at h
    exact h
  subst hs0
  have hA := run_frames ((World.init checkInId).run evs) frames s1 hs hrun
  have hB := readLoop_frames (reached checkInId evs) (frames.map Prod.snd) s1 hs
  have hid2 : ((World.init checkInId).run evs).globals.checkInId = checkInId := hid
  rw [hid2] at hA
  rw [hid] at hB
  have hA2 : getCheckIn (((World.init checkInId).run evs).run
        (frames.map fun f => Event.iteration f.1 (.frame f.2.1 f.2.2 false))).globals
      = [{ Id := checkInId, Status := (lastUpdate (frames.map Prod.snd)).getD s1 }] := by
    simp [getCheckIn, GoMap.values, hA]
  refine ⟨hA2, ?_, ?_⟩
  · show List.map Prod.snd (readLoop (reached checkInId evs)
        ((frames.map Prod.snd).map fun f => Recv.frame f.1 f.2 false)).globals.checkIns = _
    rw [hB]
    rfl
  intro h1 h2 messageType1 msg1 messageType2 msg2 m1 m2 hfr hp1 hj1 hp2 hj2
  have hl : (lastUpdate (frames.map Prod.snd)).getD s1 = m2.Status := by
    rw [hfr]
    simp [lastUpdate, frameUpdate, hp2, hj2]
  rw [hl] at hA2
  exact ⟨hA2, Or.inr hA2⟩

theorem last_write_wins_witness :
    getCheckIn (((World.init (ascii "id0")).run
          [.upgraded 1 (ascii "a") false, .upgraded 2 (ascii "b") false]).run
          ([(1, TextMessage, ascii "\x7b\"status\":\"busy\"\x7d"),
            (2, TextMessage, ascii "\x7b\"status\":\"free\"\x7d"),
            (1, TextMessage, ascii "ping")].map
              fun f => Event.iteration f.1 (.frame f.2.1 f.2.2 false))).globals
      = [{ Id := ascii "id0", Status := ascii "free" }] :=
  ((last_write_wins (ascii "id0") [.upgraded 1 (ascii "a") false, .upgraded 2 (ascii "b") false]
    []
    [(1, TextMessage, ascii "\x7b\"status\":\"busy\"\x7d"),
      (2, TextMessage, ascii "\x7b\"status\":\"free\"\x7d"),
      (1, TextMessage, ascii "ping")]
    (by decide) (by decide)).1).trans (by decide)

end WebsocketPoc
